import Mathlib

/-!
Verification of the multi-source iteration subsystem of this repository
(`torchtnt/utils/data/iterators.py`), via a shallow embedding.

Sources are modelled as insertion-ordered association lists from keys
to lists of batches (a Python iterator over a source is the list of elements
it has still to produce; `next` takes the head).  Each iterator class of the
source file becomes a state structure plus an executable step function that
mirrors its `__next__` line by line.  Recursive retry loops of the source are
given an explicit fuel argument; a result of `hang` means the Python code
would not terminate at that point, and `keyError` marks a Python `KeyError`.
Every call of `next()` on an individual source iterator handle, every
re-creation of such a handle, and the distributed-coordination calls are
recorded as events, so that claims about "never re-queried" or "no broadcast
attempted" can be stated faithfully.
-/

namespace TNT

/-- Source keys are dataloader names.  The iteration logic only ever
compares names for equality or sorts them, so they are modelled as
naturals (in the concrete instances below, 0 plays the role of `"a"`,
1 of `"b"`, and 99 of an unknown name). -/
abbrev Key := Nat

/-- A batch is opaque to the iteration logic; we model it as a natural. -/
abbrev Batch := Nat

/-- An insertion-ordered mapping from dataloader name to the list of batches
its iterator has still to produce (Python dict of iterators). -/
abbrev SrcMap := List (Key × List Batch)

/-- One selection record: mapping from source key(s) to drawn batch(es),
in insertion order. -/
abbrev Record := List (Key × Batch)

/-- Observable events of one step: `query k` is a `next()` call on source
`k`'s current iterator handle, `restartIter k` is a re-creation
`iter(individual_dataloaders[k])`, `newGroup` and `broadcast` are the
distributed-coordination calls. -/
inductive Ev
  | query (k : Key)
  | restartIter (k : Key)
  | newGroup
  | broadcast
deriving DecidableEq, Repr

/-- `dict[k]` lookup. -/
def lookupSrc (k : Key) : SrcMap → Option (List Batch)
  | [] => none
  | (k', v) :: rest => if k' = k then some v else lookupSrc k rest

/-- `dict[k] = v` update (no-op if the key is absent, which never happens on
the paths we model). -/
def setSrc (k : Key) (v : List Batch) : SrcMap → SrcMap
  | [] => []
  | (k', w) :: rest => if k' = k then (k', v) :: rest else (k', w) :: setSrc k v rest

/-- `list(dict.keys())`. -/
def keysOf (m : SrcMap) : List Key := m.map Prod.fst

/-- Total number of batches remaining over all handles. -/
def sumLens (m : SrcMap) : Nat := (m.map (fun p => p.2.length)).sum

/-- `StoppingMechanism` enum of the source. -/
inductive StoppingMechanism
  | ALL_DATASETS_EXHAUSTED
  | SMALLEST_DATASET_EXHAUSTED
  | RESTART_UNTIL_ALL_DATASETS_EXHAUSTED
  | WRAP_AROUND_UNTIL_KILLED
deriving DecidableEq, Repr

/-- Configuration-time failures: `NotImplementedError` for an unsupported
stopping mechanism, `IndexError` for `order[0]` on an empty key list. -/
inductive ConfigErr
  | notImplementedError (msg : String)
  | indexError
deriving DecidableEq, Repr

/-! ## RoundRobinIterator -/

/-- Mutable state of `RoundRobinIterator`.  `cycle_pos` is the position of
the `itertools.cycle` over `round_robin_order` (index of the element the
next `next(self.dataloader_cycle)` yields); it is kept `< order.length`. -/
structure RoundRobinState where
  individual_iterators : SrcMap
  round_robin_order : List Key
  cycle_pos : Nat
  cur_dataloader : Key
  finished_dataloaders : List Key
  stopping_mechanism : StoppingMechanism
deriving DecidableEq, Repr

/-- Result of one `RoundRobinIterator.__next__` call. -/
inductive RRStep
  | batch (r : Record) (s : RoundRobinState) (evs : List Ev)
  | stopIteration (s : RoundRobinState) (evs : List Ev)
  | hang
  | keyError
deriving DecidableEq, Repr

/-- Prepend an event to a step result. -/
def RRStep.consEv (e : Ev) : RRStep → RRStep
  | .batch r s evs => .batch r s (e :: evs)
  | .stopIteration s evs => .stopIteration s (e :: evs)
  | x => x

/-- `self.cur_dataloader = next(self.dataloader_cycle)` followed by
`while self.cur_dataloader in self.finished_dataloaders: ... next(...)`:
yields the first key of the cyclic stream starting at `pos` that is not
finished, together with the cycle position just past it.  Fuelled; `none`
means the while loop did not terminate within `fuel` draws. -/
def cycleTake (order : List Key) (fin : List Key) : Nat → Nat → Option (Key × Nat)
  | 0, _ => none
  | fuel+1, pos =>
    let n := order.length
    let c := order.getD (pos % n) 0
    if c ∈ fin then cycleTake order fin fuel ((pos + 1) % n)
    else some (c, (pos + 1) % n)

/-- `RoundRobinIterator.__next__` (iterators.py lines 170-195).  The fuel
bounds the `return self.__next__()` retries after marking a source
finished. -/
def rrNext (fuel : Nat) (s : RoundRobinState) : RRStep :=
  if s.finished_dataloaders.length = s.individual_iterators.length then
    .stopIteration s []
  else
    match cycleTake s.round_robin_order s.finished_dataloaders
        s.round_robin_order.length s.cycle_pos with
    | none => .hang
    | some (c, p) =>
      let s1 : RoundRobinState := { s with cur_dataloader := c, cycle_pos := p }
      match lookupSrc c s1.individual_iterators with
      | none => .keyError
      | some (x :: xs) =>
        .batch [(c, x)]
          { s1 with individual_iterators := setSrc c xs s1.individual_iterators }
          [.query c]
      | some [] =>
        if s1.stopping_mechanism = .SMALLEST_DATASET_EXHAUSTED then
          .stopIteration s1 [.query c]
        else
          let s2 := { s1 with
            finished_dataloaders := s1.finished_dataloaders ++ [c] }
          if s2.finished_dataloaders.length = s2.individual_iterators.length then
            .stopIteration s2 [.query c]
          else
            match fuel with
            | 0 => .hang
            | f+1 => (rrNext f s2).consEv (.query c)

/-- How a driven run ended. -/
inductive RunEnd
  | stopped
  | fuelOut
  | hang
  | keyError
deriving DecidableEq, Repr

/-- Drive `RoundRobinIterator` until `StopIteration`, collecting the records
(`fuel` bounds the number of `next()` calls). -/
def rrRun : Nat → RoundRobinState → List Record × RoundRobinState × RunEnd
  | 0, s => ([], s, .fuelOut)
  | fuel+1, s =>
    match rrNext (s.individual_iterators.length + 1) s with
    | .batch r s' _ =>
      let out := rrRun fuel s'
      (r :: out.1, out.2.1, out.2.2)
    | .stopIteration s' _ => ([], s', .stopped)
    | .hang => ([], s, .hang)
    | .keyError => ([], s, .keyError)

/-- `RoundRobinIterator.__init__` (lines 145-168): rejects
`WRAP_AROUND_UNTIL_KILLED` before building any iterator; the cycle order is
the supplied `iteration_order` or the dataloader keys; `cur_dataloader`
starts at `order[0]` (IndexError if the order is empty). -/
def rrInit (dls : SrcMap) (sm : StoppingMechanism) (iteration_order : Option (List Key)) :
    Except ConfigErr RoundRobinState :=
  if sm = .WRAP_AROUND_UNTIL_KILLED then
    .error (.notImplementedError "WRAP_AROUND_UNTIL_KILLED is not implemented for RoundRobin")
  else
    let order := iteration_order.getD (keysOf dls)
    match order with
    | [] => .error .indexError
    | k :: _ => .ok ⟨dls, order, 0, k, [], sm⟩

/-- The membership test `cur_dataloader not in self.dataloader_cycle`
(line 209).  Python evaluates `in` on the `itertools.cycle` object by
drawing from it until the element appears; on success the cycle is left
positioned just past the first occurrence.  Fuelled; `none` means the scan
did not find the key within `fuel` draws (for an absent key it never
does, so the membership test never returns). -/
def cycleFindMember (order : List Key) (key : Key) : Nat → Nat → Option Nat
  | 0, _ => none
  | fuel+1, pos =>
    let n := order.length
    if order.getD (pos % n) 0 = key then some ((pos + 1) % n)
    else cycleFindMember order key fuel ((pos + 1) % n)

/-- The replay loop `while self.cur_dataloader != cur_dataloader:
self.cur_dataloader = next(self.dataloader_cycle)` (lines 214-215). -/
def cycleReplay (order : List Key) (key : Key) : Nat → Nat → Key → Option (Key × Nat)
  | 0, _, _ => none
  | fuel+1, pos, cur =>
    if cur = key then some (cur, pos)
    else
      let n := order.length
      cycleReplay order key fuel ((pos + 1) % n) (order.getD (pos % n) 0)

/-- `RoundRobinIterator.load_state_dict` (lines 203-215): restores the
finished list, then runs the membership test on the cycle and the replay
loop.  `none` means the call never returns (one of the two loops spins
forever). -/
def rrLoadStateDict (fuel : Nat) (sd : List Key × Key) (s : RoundRobinState) :
    Option RoundRobinState :=
  let s1 := { s with finished_dataloaders := sd.1 }
  match cycleFindMember s1.round_robin_order sd.2 fuel s1.cycle_pos with
  | none => none
  | some p =>
    match cycleReplay s1.round_robin_order sd.2 fuel p s1.cur_dataloader with
    | none => none
    | some (c, p') => some { s1 with cur_dataloader := c, cycle_pos := p' }

/-! ## AllDatasetBatchesIterator -/

/-- Mutable state of `AllDatasetBatchesIterator`. -/
structure ADBState where
  individual_dataloaders : SrcMap
  individual_iterators : SrcMap
  iterators_finished : List Key
  stopping_mechanism : StoppingMechanism
deriving DecidableEq, Repr

/-- Outcome of the `for iterator in self.individual_iterators` loop of
`AllDatasetBatchesIterator.__next__` over the remaining entries:
either the accumulated record together with the updated entries and
finished list, or a propagated `StopIteration` (with the entries updated up
to the point of the raise). -/
inductive ADBGoOut
  | ok (r : Record) (iters : SrcMap) (fin : List Key) (evs : List Ev)
  | stopped (iters : SrcMap) (fin : List Key) (evs : List Ev)
  | keyError
deriving DecidableEq, Repr

/-- The body of `AllDatasetBatchesIterator.__next__` (lines 281-306),
processing the iterator entries left to right. -/
def adbGo (sm : StoppingMechanism) (dls : SrcMap) (fin : List Key) :
    List (Key × List Batch) → ADBGoOut
  | [] => .ok [] [] fin []
  | (k, v) :: rest =>
    match v with
    | x :: xs =>
      match adbGo sm dls fin rest with
      | .ok r it f e => .ok ((k, x) :: r) ((k, xs) :: it) f (.query k :: e)
      | .stopped it f e => .stopped ((k, xs) :: it) f (.query k :: e)
      | .keyError => .keyError
    | [] =>
      if sm = .SMALLEST_DATASET_EXHAUSTED then
        .stopped ((k, []) :: rest) fin [.query k]
      else if sm = .RESTART_UNTIL_ALL_DATASETS_EXHAUSTED then
        let fin' := if k ∈ fin then fin else fin ++ [k]
        if fin'.length = dls.length then
          .stopped ((k, []) :: rest) fin' [.query k]
        else
          match lookupSrc k dls with
          | none => .keyError
          | some (y :: ys) =>
            match adbGo sm dls fin' rest with
            | .ok r it f e =>
              .ok ((k, y) :: r) ((k, ys) :: it) f
                (.query k :: .restartIter k :: .query k :: e)
            | .stopped it f e =>
              .stopped ((k, ys) :: it) f (.query k :: .restartIter k :: .query k :: e)
            | .keyError => .keyError
          | some [] =>
            .stopped ((k, []) :: rest) fin' [.query k, .restartIter k, .query k]
      else
        match adbGo sm dls fin rest with
        | .ok r it f e => .ok r ((k, []) :: it) f (.query k :: e)
        | .stopped it f e => .stopped ((k, []) :: it) f (.query k :: e)
        | .keyError => .keyError

/-- Result of one `AllDatasetBatchesIterator.__next__` call. -/
inductive ADBStep
  | batch (r : Record) (s : ADBState) (evs : List Ev)
  | stopIteration (s : ADBState) (evs : List Ev)
  | keyError
deriving DecidableEq, Repr

/-- `AllDatasetBatchesIterator.__next__` (lines 281-309): run the loop; an
empty resulting record raises `StopIteration` (line 307). -/
def adbNext (s : ADBState) : ADBStep :=
  match adbGo s.stopping_mechanism s.individual_dataloaders s.iterators_finished
      s.individual_iterators with
  | .ok r it f e =>
    let s' := { s with individual_iterators := it, iterators_finished := f }
    if r.length = 0 then .stopIteration s' e else .batch r s' e
  | .stopped it f e =>
    .stopIteration { s with individual_iterators := it, iterators_finished := f } e
  | .keyError => .keyError

/-- Drive `AllDatasetBatchesIterator` until `StopIteration`, collecting
records and events. -/
def adbRun : Nat → ADBState → List Record × ADBState × RunEnd × List Ev
  | 0, s => ([], s, .fuelOut, [])
  | fuel+1, s =>
    match adbNext s with
    | .batch r s' evs =>
      let out := adbRun fuel s'
      (r :: out.1, out.2.1, out.2.2.1, evs ++ out.2.2.2)
    | .stopIteration s' evs => ([], s', .stopped, evs)
    | .keyError => ([], s, .keyError, [])

/-- `AllDatasetBatchesIterator.__init__` (lines 262-279): rejects
`WRAP_AROUND_UNTIL_KILLED` before building any iterator. -/
def adbInit (dls : SrcMap) (sm : StoppingMechanism) : Except ConfigErr ADBState :=
  if sm = .WRAP_AROUND_UNTIL_KILLED then
    .error (.notImplementedError "WRAP_AROUND_UNTIL_KILLED is not implemented for AllDatasetBatches")
  else
    .ok ⟨dls, dls, [], sm⟩

/-- Run `AllDatasetBatchesIterator.__next__` exactly `n` times, requiring a
record each time. -/
def adbSteps : Nat → ADBState → Option (List Record × ADBState)
  | 0, s => some ([], s)
  | n+1, s =>
    match adbNext s with
    | .batch r s' _ =>
      match adbSteps n s' with
      | some (rs, s'') => some (r :: rs, s'')
      | none => none
    | _ => none

/-- Length of the smallest source of a source map (`0` for an empty map). -/
def minLen : SrcMap → Nat
  | [] => 0
  | [p] => p.2.length
  | p :: q :: rest => Nat.min p.2.length (minLen (q :: rest))

/-! ## RandomizedBatchSamplerIterator -/

/-- The external distributed capability: `torch.distributed.is_available()`
and `is_initialized()`. -/
structure DistEnv where
  is_available : Bool
  is_initialized : Bool
deriving DecidableEq, Repr

/-- Mutable state of `RandomizedBatchSamplerIterator`.  `iterator_weights`
is the weight list parallel to the sorted `iterator_names` (or `none` when
the strategy supplied no weights); `iterator_is_exhausted` is the boolean
list parallel to `iterator_names`. -/
structure SamplerState where
  individual_dataloaders : SrcMap
  individual_iterators : SrcMap
  iterator_names : List Key
  iterator_weights : Option (List Nat)
  iterator_is_exhausted : List Bool
  stopping_mechanism : StoppingMechanism
  iterators_finished : List Key
deriving DecidableEq, Repr

/-- Result of one `RandomizedBatchSamplerIterator.__next__` call, together
with the unconsumed part of the random oracle. -/
inductive SamplerStep
  | batch (r : Record) (s : SamplerState) (oracle : List Nat) (evs : List Ev)
  | stopIteration (s : SamplerState) (oracle : List Nat) (evs : List Ev)
  | hang
  | keyError
deriving DecidableEq, Repr

/-- Prepend events to a sampler step result. -/
def SamplerStep.consEvs (es : List Ev) : SamplerStep → SamplerStep
  | .batch r s o evs => .batch r s o (es ++ evs)
  | .stopIteration s o evs => .stopIteration s o (es ++ evs)
  | x => x

/-- The population handed to `random.choices` (lines 407-426): the
exhausted-filtering happens only when the stopping mechanism is not
`WRAP_AROUND_UNTIL_KILLED` AND weights were supplied
(`iterator_weights is not None`). -/
def samplerCandidates (s : SamplerState) : List Key :=
  if s.stopping_mechanism ≠ .WRAP_AROUND_UNTIL_KILLED ∧ s.iterator_weights.isSome then
    (s.iterator_names.zip s.iterator_is_exhausted).filterMap
      (fun p => if p.2 then none else some p.1)
  else s.iterator_names

/-- `self._iterator_is_exhausted[self._iterator_names.index(k)]`. -/
def exhaustedAt (s : SamplerState) (k : Key) : Bool :=
  s.iterator_is_exhausted.getD (s.iterator_names.indexOf k) false

/-- `self._iterator_is_exhausted[self._iterator_names.index(k)] = True`
(lines 460-461). -/
def markExhausted (s : SamplerState) (k : Key) : SamplerState :=
  { s with iterator_is_exhausted :=
      s.iterator_is_exhausted.set (s.iterator_names.indexOf k) true }

/-- `RandomizedBatchSamplerIterator.__next__` (lines 389-464).  The random
oracle supplies, for each `random.choices` call, an arbitrary natural that
is reduced modulo the population size to an index (so every possible choice
is represented by some oracle).  The distributed broadcast is
rank-0-authoritative; on the broadcasting process the selected key is
unchanged, so in this single-process model only the blocking call itself is
recorded as an event.  The fuel bounds the `return next(self)` retries. -/
def samplerNext (enforce : Bool) (env : DistEnv) (fuel : Nat) (oracle : List Nat)
    (s : SamplerState) : SamplerStep :=
  if s.stopping_mechanism = .SMALLEST_DATASET_EXHAUSTED ∧
      s.iterator_is_exhausted.any id then
    .stopIteration s oracle []
  else if s.stopping_mechanism = .ALL_DATASETS_EXHAUSTED ∧
      s.iterator_is_exhausted.all id then
    .stopIteration s oracle []
  else if s.stopping_mechanism = .RESTART_UNTIL_ALL_DATASETS_EXHAUSTED ∧
      s.iterators_finished.length = s.individual_iterators.length then
    .stopIteration s oracle []
  else
    let cands := samplerCandidates s
    match cands with
    | [] => .keyError
    | _ :: _ =>
      let pick := oracle.headD 0
      let o' := oracle.tail
      let sel := cands.getD (pick % cands.length) 0
      let bevs : List Ev :=
        if enforce ∧ env.is_available = true ∧ env.is_initialized = true then
          [Ev.broadcast]
        else []
      match lookupSrc sel s.individual_iterators with
      | none => .keyError
      | some (x :: xs) =>
        .batch [(sel, x)]
          { s with individual_iterators := setSrc sel xs s.individual_iterators }
          o' (bevs ++ [.query sel])
      | some [] =>
        if s.stopping_mechanism = .RESTART_UNTIL_ALL_DATASETS_EXHAUSTED then
          let fin' := if sel ∈ s.iterators_finished then s.iterators_finished
                      else s.iterators_finished ++ [sel]
          let s1 := { s with iterators_finished := fin' }
          if fin'.length = s1.individual_iterators.length then
            .stopIteration s1 o' (bevs ++ [.query sel])
          else
            match lookupSrc sel s1.individual_dataloaders with
            | none => .keyError
            | some [] =>
              .stopIteration
                { s1 with individual_iterators := setSrc sel [] s1.individual_iterators }
                o' (bevs ++ [.query sel, .restartIter sel, .query sel])
            | some (y :: ys) =>
              .batch [(sel, y)]
                { s1 with individual_iterators := setSrc sel ys s1.individual_iterators }
                o' (bevs ++ [.query sel, .restartIter sel, .query sel])
        else if s.stopping_mechanism = .WRAP_AROUND_UNTIL_KILLED then
          match lookupSrc sel s.individual_dataloaders with
          | none => .keyError
          | some [] =>
            .stopIteration
              { s with individual_iterators := setSrc sel [] s.individual_iterators }
              o' (bevs ++ [.query sel, .restartIter sel, .query sel])
          | some (y :: ys) =>
            .batch [(sel, y)]
              { s with individual_iterators := setSrc sel ys s.individual_iterators }
              o' (bevs ++ [.query sel, .restartIter sel, .query sel])
        else
          let s1 := markExhausted s sel
          match fuel with
          | 0 => .hang
          | f+1 =>
            (samplerNext enforce env f o' s1).consEvs (bevs ++ [.query sel])

/-- Insertion of a key into a sorted key list. -/
def insertSorted (k : Key) : List Key → List Key
  | [] => [k]
  | x :: xs => if k ≤ x then k :: x :: xs else x :: insertSorted k xs

/-- `sorted(keys)`. -/
def sortKeys (l : List Key) : List Key := l.foldr insertSorted []

/-- Assoc-list lookup for the weights mapping. -/
def lookupNat (k : Key) : List (Key × Nat) → Option Nat
  | [] => none
  | (k', v) :: rest => if k' = k then some v else lookupNat k rest

/-- `RandomizedBatchSamplerIterator.__init__` (lines 349-387): sorts the
names, checks that every name has a weight when weights are supplied
(`AssertionError` otherwise), and — whenever
`enforce_same_loader_across_ranks` is set — unconditionally creates the
dedicated process group (`dist.new_group`), recorded as a `newGroup` event,
regardless of whether the distributed capability is initialized. -/
def samplerInit (dls : SrcMap) (weights : Option (List (Key × Nat)))
    (sm : StoppingMechanism) (enforce : Bool) :
    Except String (SamplerState × List Ev) :=
  let names := sortKeys (keysOf dls)
  let evs : List Ev := if enforce then [.newGroup] else []
  match weights with
  | none =>
    .ok (⟨dls, dls, names, none, List.replicate names.length false, sm, []⟩, evs)
  | some w =>
    if names.all (fun n => (lookupNat n w).isSome) then
      .ok (⟨dls, dls, names, some (names.map (fun n => (lookupNat n w).getD 0)),
        List.replicate names.length false, sm, []⟩, evs)
    else
      .error "Weight keys must match dataloader keys"

/-- Drive `RandomizedBatchSamplerIterator` until `StopIteration`. -/
def samplerRun (enforce : Bool) (env : DistEnv) :
    Nat → List Nat → SamplerState → List Record × SamplerState × RunEnd
  | 0, _, s => ([], s, .fuelOut)
  | fuel+1, oracle, s =>
    match samplerNext enforce env (s.iterator_names.length + 1) oracle s with
    | .batch r s' o' _ =>
      let out := samplerRun enforce env fuel o' s'
      (r :: out.1, out.2.1, out.2.2)
    | .stopIteration s' _ _ => ([], s', .stopped)
    | .hang => ([], s, .hang)
    | .keyError => ([], s, .keyError)

/-! ## InOrderIterator -/

/-- Mutable state of `InOrderIterator`.  `cur_iter` is the current source
iterator handle (remaining batches). -/
structure InOrderState where
  individual_dataloaders : SrcMap
  iteration_order : List Key
  cur_iter : List Batch
  cur_iterator_idx : Nat
  cur_iterator : Key
  iterators_finished : Nat
deriving DecidableEq, Repr

/-- Result of one `InOrderIterator.__next__` call. -/
inductive IOStep
  | batch (r : Record) (s : InOrderState) (evs : List Ev)
  | stopIteration (s : InOrderState) (evs : List Ev)
  | hang
  | keyError
deriving DecidableEq, Repr

/-- Prepend an event to an InOrder step result. -/
def IOStep.consEv (e : Ev) : IOStep → IOStep
  | .batch r s evs => .batch r s (e :: evs)
  | .stopIteration s evs => .stopIteration s (e :: evs)
  | x => x

/-- The lazy checkpoint-restore reinitialization at the top of
`InOrderIterator.__next__` (lines 525-531): when `iterators_finished`
disagrees with `cur_iterator_idx`, the expected iterator is (re)built.
`none` is a `KeyError` on the dataloader dict. -/
def ioLazyInit (s : InOrderState) : Option InOrderState :=
  if s.iterators_finished = s.cur_iterator_idx then some s
  else
    let k := s.iteration_order.getD s.iterators_finished 0
    match lookupSrc k s.individual_dataloaders with
    | none => none
    | some w =>
      some { s with cur_iterator_idx := s.iterators_finished,
                    cur_iterator := k,
                    cur_iter := w }

/-- `InOrderIterator.__next__` (lines 518-546). -/
def ioNext (fuel : Nat) (s : InOrderState) : IOStep :=
  if s.iterators_finished = s.iteration_order.length then .stopIteration s []
  else
    match ioLazyInit s with
    | none => .keyError
    | some s1 =>
      match s1.cur_iter with
      | x :: xs =>
        .batch [(s1.cur_iterator, x)] { s1 with cur_iter := xs } [.query s1.cur_iterator]
      | [] =>
        let fin' := s1.iterators_finished + 1
        if fin' = s1.iteration_order.length then
          .stopIteration { s1 with iterators_finished := fin' } [.query s1.cur_iterator]
        else
          let k' := s1.iteration_order.getD fin' 0
          match lookupSrc k' s1.individual_dataloaders with
          | none => .keyError
          | some w =>
            let s2 : InOrderState :=
              { s1 with iterators_finished := fin',
                        cur_iterator_idx := s1.cur_iterator_idx + 1,
                        cur_iterator := k', cur_iter := w }
            match fuel with
            | 0 => .hang
            | f+1 => (ioNext f s2).consEv (.query s1.cur_iterator)

/-- Drive `InOrderIterator` until `StopIteration`, collecting records. -/
def ioRun : Nat → InOrderState → List Record × InOrderState × RunEnd
  | 0, s => ([], s, .fuelOut)
  | fuel+1, s =>
    match ioNext (s.iteration_order.length + 1) s with
    | .batch r s' _ =>
      let out := ioRun fuel s'
      (r :: out.1, out.2.1, out.2.2)
    | .stopIteration s' _ => ([], s', .stopped)
    | .hang => ([], s, .hang)
    | .keyError => ([], s, .keyError)

/-- The keys of a record, in order. -/
def recKeys (r : Record) : List Key := r.map Prod.fst

/-! ## Auxiliary definitions for the verification -/

/-- Number of occurrences of an event in an event list. -/
def countEv (e : Ev) (evs : List Ev) : Nat := (evs.filter (fun x => x = e)).length

/-- First batch of each entry (used to describe a full All-Sources-Batches
record). -/
def headsOf (entries : SrcMap) : Record := entries.map (fun p => (p.1, p.2.headD 0))

/-- Each entry with its first batch removed. -/
def tailsOf (entries : SrcMap) : SrcMap := entries.map (fun p => (p.1, p.2.tail))

/-- Invariant of reachable Round-Robin states (default construction):
the cycle order is the iterator key list, keys are distinct, the cycle
position is in range, the finished list is a duplicate-free sublist of the
order whose sources are all drained, and the stopping mechanism is not
`SMALLEST_DATASET_EXHAUSTED`. -/
def RRInvP (s : RoundRobinState) : Prop :=
  s.round_robin_order = keysOf s.individual_iterators ∧
  (keysOf s.individual_iterators).Nodup ∧
  s.cycle_pos < s.round_robin_order.length ∧
  (∀ k ∈ s.finished_dataloaders, k ∈ s.round_robin_order) ∧
  s.finished_dataloaders.Nodup ∧
  (∀ k ∈ s.finished_dataloaders, lookupSrc k s.individual_iterators = some []) ∧
  s.stopping_mechanism ≠ .SMALLEST_DATASET_EXHAUSTED

/-- Exhausted flags of a sampler state only mark drained handles. -/
def SamplerExhInv (s : SamplerState) : Prop :=
  ∀ k, exhaustedAt s k = true → lookupSrc k s.individual_iterators = some []

/-- The concrete Round-Robin iterator used for C4: sources `a` and `b`
with one batch each, default order, `ALL_DATASETS_EXHAUSTED`. -/
def c4Dls : SrcMap := [(0, [0]), (1, [0])]

/-- The freshly constructed state over `c4Dls`. -/
def c4Fresh : RoundRobinState :=
  ⟨c4Dls, [0, 1], 0, 0, [], .ALL_DATASETS_EXHAUSTED⟩

/-- Concrete sources for the C1 counterexample: `a` of length 1, `b` of
length 1. -/
def c1Dls : SrcMap := [(0, [0]), (1, [5])]

/-- Fresh Round-Robin iterator over `c1Dls` under
`SMALLEST_DATASET_EXHAUSTED`. -/
def c1RR : RoundRobinState :=
  ⟨c1Dls, [0, 1], 0, 0, [], .SMALLEST_DATASET_EXHAUSTED⟩

/-- Fresh Weighted-Sampler iterator over sources `a` (length 1) and `b`
(length 2) under `SMALLEST_DATASET_EXHAUSTED`, no weights. -/
def c1SP : SamplerState :=
  ⟨[(0, [0]), (1, [10, 11])], [(0, [0]), (1, [10, 11])], [0, 1], none,
   [false, false], .SMALLEST_DATASET_EXHAUSTED, []⟩

/-- Fresh All-Sources-Batches iterator over `a` (length 1) and `b`
(length 3) under `ALL_DATASETS_EXHAUSTED` (C2 counterexample). -/
def c2ADB : ADBState :=
  ⟨[(0, [0]), (1, [1, 2, 3])], [(0, [0]), (1, [1, 2, 3])], [],
   .ALL_DATASETS_EXHAUSTED⟩

/-- Fresh All-Sources-Batches iterator over `a` (length 1) and `b`
(length 2) under `RESTART_UNTIL_ALL_DATASETS_EXHAUSTED` (C3
counterexample). -/
def c3ADB : ADBState :=
  ⟨[(0, [0]), (1, [10, 11])], [(0, [0]), (1, [10, 11])], [],
   .RESTART_UNTIL_ALL_DATASETS_EXHAUSTED⟩

/-- Fresh All-Sources-Batches iterator with an empty source `a` under
`RESTART_UNTIL_ALL_DATASETS_EXHAUSTED`. -/
def c3ADBEmpty : ADBState :=
  ⟨[(0, []), (1, [1, 2])], [(0, []), (1, [1, 2])], [],
   .RESTART_UNTIL_ALL_DATASETS_EXHAUSTED⟩

/-- Fresh Weighted-Sampler iterator with an empty source `a` under
`RESTART_UNTIL_ALL_DATASETS_EXHAUSTED`. -/
def c3SPEmpty : SamplerState :=
  ⟨[(0, []), (1, [1])], [(0, []), (1, [1])], [0, 1], none,
   [false, false], .RESTART_UNTIL_ALL_DATASETS_EXHAUSTED, []⟩

/-- An All-Sources-Batches restart-mode state about to signal its end:
the only source (nonempty dataloader) has an exhausted handle and is
already in the finished list. -/
def c3WitADB : ADBState :=
  ⟨[(0, [1])], [(0, [])], [0], .RESTART_UNTIL_ALL_DATASETS_EXHAUSTED⟩

/-- A Weighted-Sampler restart-mode state at its end condition. -/
def c3WitSP : SamplerState :=
  ⟨[(0, [1])], [(0, [])], [0], none, [false], .RESTART_UNTIL_ALL_DATASETS_EXHAUSTED, [0]⟩

/-- Sampler state for the C6 counterexample: `weights = None`, source `a`
already marked exhausted (and drained), `b` still live. -/
def c6SP : SamplerState :=
  ⟨[(0, []), (1, [5, 6])], [(0, []), (1, [5, 6])], [0, 1], none,
   [true, false], .ALL_DATASETS_EXHAUSTED, []⟩

/-- The state of `c6SP` after one `__next__` call with oracle `[0, 1]`:
the draw first hit the exhausted source 0, whose handle was queried, then
retried and consumed the head of source 1. -/
def c6Mid : SamplerState :=
  ⟨[(0, []), (1, [5, 6])], [(0, []), (1, [6])], [0, 1], none,
   [true, false], .ALL_DATASETS_EXHAUSTED, []⟩

/-- A weighted sampler state (weights supplied) with source 0 exhausted,
used to witness the weighted candidate filtering. -/
def c6wSP : SamplerState :=
  ⟨[(0, []), (1, [5])], [(0, []), (1, [5])], [0, 1], some [1, 1],
   [true, false], .ALL_DATASETS_EXHAUSTED, []⟩

/-- The state of `c1SP` after one `__next__` call with oracle `[0]`. -/
def c6BatchPost : SamplerState :=
  ⟨[(0, [0]), (1, [10, 11])], [(0, []), (1, [10, 11])], [0, 1], none,
   [false, false], .SMALLEST_DATASET_EXHAUSTED, []⟩

/-- A distributed environment that is available but NOT initialized. -/
def envUninit : DistEnv := ⟨true, false⟩

/-- The state of `c2ADB` after its first `__next__` call: source 0 is
drained but not flagged finished. -/
def c2Mid : ADBState :=
  ⟨[(0, [0]), (1, [1, 2, 3])], [(0, []), (1, [2, 3])], [], .ALL_DATASETS_EXHAUSTED⟩

/-- A Round-Robin state in which source 0 is finished (for the C2
witness). -/
def c2RRFin : RoundRobinState :=
  ⟨[(0, []), (1, [5])], [0, 1], 0, 0, [0], .ALL_DATASETS_EXHAUSTED⟩

/-- Sources for the C9 concrete check: `a` of length 1, `b` of length 3. -/
def c9Dls : SrcMap := [(0, [0]), (1, [1, 2, 3])]

/-- Events observed during a Round-Robin step. -/
def RRStep.evsOf : RRStep → List Ev
  | .batch _ _ evs => evs
  | .stopIteration _ evs => evs
  | _ => []

/-- Finished list after a Round-Robin step (`default` when the step did not
return). -/
def RRStep.finOf (default : List Key) : RRStep → List Key
  | .batch _ s _ => s.finished_dataloaders
  | .stopIteration s _ => s.finished_dataloaders
  | _ => default

/-- Events observed during a sampler step. -/
def SamplerStep.evsOf : SamplerStep → List Ev
  | .batch _ _ _ evs => evs
  | .stopIteration _ _ evs => evs
  | _ => []

/-! ## Claim C5: WrapUntilKilled fails at construction -/

/-- C5: constructing a Round-Robin iterator or an All-Sources-Batches
iterator with stopping mode `WRAP_AROUND_UNTIL_KILLED` always fails at
construction time with a `NotImplementedError`, for every source set (and,
for Round-Robin, every iteration order), before any step is taken. -/
theorem C5_wrap_until_killed_fails_at_construction :
    ∀ (dls : SrcMap) (ord : Option (List Key)),
      rrInit dls .WRAP_AROUND_UNTIL_KILLED ord =
        .error (.notImplementedError
          "WRAP_AROUND_UNTIL_KILLED is not implemented for RoundRobin") ∧
      adbInit dls .WRAP_AROUND_UNTIL_KILLED =
        .error (.notImplementedError
          "WRAP_AROUND_UNTIL_KILLED is not implemented for AllDatasetBatches") := by
  intro dls ord
  constructor
  · simp [rrInit]
  · simp [adbInit]

/-! ## Claim C4: restore with an unknown current key -/

/-- If `key` does not occur in the (nonempty) cycle order, the membership
scan over the `itertools.cycle` iterator never finds it, whatever the fuel
and starting position. -/
theorem cycleFindMember_absent (order : List Key) (key : Key)
    (hne : order ≠ []) (habs : key ∉ order) :
    ∀ fuel pos, cycleFindMember order key fuel pos = none := by
  intro fuel
  induction fuel with
  | zero => intro pos; rfl
  | succ f ih =>
    intro pos
    have hn : 0 < order.length := List.length_pos.mpr hne
    have hmem : order.getD (pos % order.length) 0 ∈ order := by
      have : pos % order.length < order.length := Nat.mod_lt _ hn
      rw [List.getD_eq_getElem order 0 this]
      exact List.getElem_mem this
    have hne2 : order.getD (pos % order.length) 0 ≠ key := by
      intro h; exact habs (h ▸ hmem)
    simp only [cycleFindMember, if_neg hne2]
    exact ih _

/-- C4 (code bug): restoring a snapshot whose saved current key `99` is
not among the configured source keys does NOT terminate with a warning
leaving the cursor unchanged — `load_state_dict` never returns.  The
membership test `cur_dataloader not in self.dataloader_cycle` scans the
infinite cyclic key stream for a key that never appears, so for every
amount of fuel the model reports nontermination (the warn-and-skip branch
of the source is unreachable). -/
theorem C4_restore_unknown_key_hangs :
    rrInit c4Dls .ALL_DATASETS_EXHAUSTED none = .ok c4Fresh ∧
    ∀ fuel, rrLoadStateDict fuel ([], 99) c4Fresh = none := by
  constructor
  · rfl
  · intro fuel
    have habs : (99 : Key) ∉ c4Fresh.round_robin_order := by decide
    have := cycleFindMember_absent c4Fresh.round_robin_order 99 (by decide) habs fuel
      c4Fresh.cycle_pos
    simp only [rrLoadStateDict, this]

/-! ## Association-list lemmas -/

theorem lookupSrc_isSome_iff (k : Key) : ∀ m : SrcMap, (lookupSrc k m).isSome ↔ k ∈ keysOf m := by
  intro m
  induction m with
  | nil => simp [lookupSrc, keysOf]
  | cons p rest ih =>
    obtain ⟨k', v⟩ := p
    by_cases h : k' = k
    · subst h; simp [lookupSrc, keysOf]
    · simp [lookupSrc, keysOf, h, ih, Ne.symm h]

theorem lookupSrc_mem {k : Key} : ∀ {m : SrcMap} {v : List Batch},
    lookupSrc k m = some v → (k, v) ∈ m := by
  intro m
  induction m with
  | nil => intro v h; simp [lookupSrc] at h
  | cons p rest ih =>
    intro v h
    obtain ⟨k', w⟩ := p
    by_cases hk : k' = k
    · subst hk
      simp [lookupSrc] at h
      subst h; exact List.mem_cons_self _ _
    · simp [lookupSrc, hk] at h
      exact List.mem_cons_of_mem _ (ih h)

theorem lookupSrc_setSrc_self {k : Key} (v : List Batch) :
    ∀ {m : SrcMap}, (lookupSrc k m).isSome → lookupSrc k (setSrc k v m) = some v := by
  intro m
  induction m with
  | nil => intro h; simp [lookupSrc] at h
  | cons p rest ih =>
    intro h
    obtain ⟨k', w⟩ := p
    by_cases hk : k' = k
    · subst hk; simp [lookupSrc, setSrc]
    · simp [lookupSrc, setSrc, hk] at h ⊢
      exact ih h

theorem lookupSrc_setSrc_ne {k k' : Key} (h : k' ≠ k) (v : List Batch) :
    ∀ m : SrcMap, lookupSrc k' (setSrc k v m) = lookupSrc k' m := by
  intro m
  induction m with
  | nil => simp [setSrc]
  | cons p rest ih =>
    obtain ⟨k'', w⟩ := p
    by_cases hk : k'' = k
    · subst hk
      have : k'' ≠ k' := fun hh => h hh.symm
      simp [setSrc, lookupSrc, this]
    · simp [setSrc, lookupSrc, hk]
      by_cases hk2 : k'' = k'
      · simp [hk2]
      · simp [hk2, ih]

theorem keysOf_setSrc (k : Key) (v : List Batch) :
    ∀ m : SrcMap, keysOf (setSrc k v m) = keysOf m := by
  intro m
  induction m with
  | nil => simp [setSrc]
  | cons p rest ih =>
    obtain ⟨k', w⟩ := p
    by_cases hk : k' = k
    · simp [setSrc, keysOf, hk]
    · simp [setSrc, keysOf, hk] at ih ⊢
      exact ih

theorem length_setSrc (k : Key) (v : List Batch) :
    ∀ m : SrcMap, (setSrc k v m).length = m.length := by
  intro m
  induction m with
  | nil => simp [setSrc]
  | cons p rest ih =>
    obtain ⟨k', w⟩ := p
    by_cases hk : k' = k
    · simp [setSrc, hk]
    · simp [setSrc, hk, ih]

theorem sumLens_setSrc {k : Key} {x : Batch} {xs : List Batch} :
    ∀ {m : SrcMap}, lookupSrc k m = some (x :: xs) →
      sumLens (setSrc k xs m) + 1 = sumLens m := by
  intro m
  induction m with
  | nil => intro h; simp [lookupSrc] at h
  | cons p rest ih =>
    intro h
    obtain ⟨k', w⟩ := p
    by_cases hk : k' = k
    · subst hk
      simp [lookupSrc] at h
      subst h
      simp [setSrc, sumLens]
      omega
    · simp [lookupSrc, hk] at h
      have := ih h
      simp [setSrc, sumLens, hk] at this ⊢
      omega

theorem sumLens_eq_zero : ∀ {m : SrcMap}, (keysOf m).Nodup →
    (∀ k ∈ keysOf m, lookupSrc k m = some []) → sumLens m = 0 := by
  intro m
  induction m with
  | nil => intro _ _; rfl
  | cons p rest ih =>
    intro hnd hall
    obtain ⟨k, v⟩ := p
    simp only [keysOf, List.map_cons, List.nodup_cons] at hnd
    have hcons : keysOf ((k, v) :: rest) = k :: keysOf rest := by simp [keysOf]
    have hv : v = [] := by
      have := hall k (by rw [hcons]; exact List.mem_cons_self _ _)
      simp [lookupSrc] at this
      exact this
    have hrest : ∀ k' ∈ keysOf rest, lookupSrc k' rest = some [] := by
      intro k' hk'
      have hne : k ≠ k' := by
        intro h; exact hnd.1 (h ▸ hk')
      have := hall k' (by rw [hcons]; exact List.mem_cons_of_mem _ hk')
      simpa [lookupSrc, hne] using this
    have := ih hnd.2 hrest
    simp [sumLens, hv] at this ⊢
    exact this

theorem mem_of_nodup_length_le {l₁ l₂ : List Key} (h₁ : l₁.Nodup)
    (hsub : ∀ x ∈ l₁, x ∈ l₂) (hlen : l₂.length ≤ l₁.length) :
    ∀ x ∈ l₂, x ∈ l₁ := by
  have hsub' : l₁.toFinset ⊆ l₂.toFinset := by
    intro x hx
    rw [List.mem_toFinset] at hx ⊢
    exact hsub x hx
  have hcard₁ : l₁.toFinset.card = l₁.length := List.toFinset_card_of_nodup h₁
  have hcard₂ : l₂.toFinset.card ≤ l₂.length := List.toFinset_card_le l₂
  have heq : l₁.toFinset = l₂.toFinset :=
    Finset.eq_of_subset_of_card_le hsub' (by omega)
  intro x hx
  have : x ∈ l₂.toFinset := List.mem_toFinset.mpr hx
  rw [← heq, List.mem_toFinset] at this
  exact this

theorem exists_not_mem_of_length_lt {l₁ l₂ : List Key} (h₂ : l₂.Nodup)
    (hlen : l₁.length < l₂.length) : ∃ x ∈ l₂, x ∉ l₁ := by
  by_contra hc
  push_neg at hc
  have hsub : l₂.toFinset ⊆ l₁.toFinset := by
    intro x hx
    rw [List.mem_toFinset] at hx ⊢
    exact hc x hx
  have hcard₂ : l₂.toFinset.card = l₂.length := List.toFinset_card_of_nodup h₂
  have hcard₁ : l₁.toFinset.card ≤ l₁.length := List.toFinset_card_le l₁
  have := Finset.card_le_card hsub
  omega

theorem nodup_subset_length_le {l₁ l₂ : List Key} (h₁ : l₁.Nodup)
    (hsub : ∀ x ∈ l₁, x ∈ l₂) : l₁.length ≤ l₂.length := by
  have hss : l₁.toFinset ⊆ l₂.toFinset := by
    intro x hx
    rw [List.mem_toFinset] at hx ⊢
    exact hsub x hx
  have h1 := Finset.card_le_card hss
  rw [List.toFinset_card_of_nodup h₁] at h1
  have h2 := List.toFinset_card_le l₂
  omega

/-! ## The Round-Robin cyclic cursor -/

theorem cycleTake_found {order fin : List Key} (hn : 0 < order.length) :
    ∀ (fuel pos : Nat),
      (∃ i, i < fuel ∧ order.getD ((pos + i) % order.length) 0 ∉ fin) →
      ∃ j, j < order.length ∧ order.getD j 0 ∉ fin ∧
        cycleTake order fin fuel pos = some (order.getD j 0, (j + 1) % order.length) := by
  intro fuel
  induction fuel with
  | zero =>
    rintro pos ⟨i, hi, _⟩
    omega
  | succ f ih =>
    rintro pos ⟨i, hi, hgood⟩
    by_cases hc : order.getD (pos % order.length) 0 ∈ fin
    · match i, hi, hgood with
      | 0, _, hgood =>
        exfalso
        rw [Nat.add_zero] at hgood
        exact hgood hc
      | i'+1, hi, hgood =>
        have hstep : order.getD ((((pos + 1) % order.length) + i') % order.length) 0 ∉ fin := by
          rw [Nat.mod_add_mod]
          have harith : pos + 1 + i' = pos + (i' + 1) := by omega
          rw [harith]
          exact hgood
        obtain ⟨j, hj, hjf, heq⟩ := ih ((pos + 1) % order.length) ⟨i', by omega, hstep⟩
        refine ⟨j, hj, hjf, ?_⟩
        simp only [cycleTake, if_pos hc]
        exact heq
    · refine ⟨pos % order.length, Nat.mod_lt _ hn, hc, ?_⟩
      simp only [cycleTake, if_neg hc]
      rw [Nat.mod_add_mod]

theorem cycleTake_total {order fin : List Key} (_hnd : order.Nodup)
    (hex : ∃ k ∈ order, k ∉ fin) (pos : Nat) :
    ∃ j, j < order.length ∧ order.getD j 0 ∉ fin ∧
      cycleTake order fin order.length pos = some (order.getD j 0, (j + 1) % order.length) := by
  obtain ⟨k, hk, hkf⟩ := hex
  obtain ⟨j0, hj0, hj0eq⟩ := List.mem_iff_getElem.mp hk
  have hn : 0 < order.length := by omega
  apply cycleTake_found hn
  refine ⟨(j0 + order.length - pos % order.length) % order.length, Nat.mod_lt _ hn, ?_⟩
  have hple : pos % order.length ≤ j0 + order.length := by
    have := Nat.mod_lt pos hn
    omega
  have hidx : (pos + (j0 + order.length - pos % order.length) % order.length) %
      order.length = j0 := by
    rw [Nat.add_mod_mod, ← Nat.mod_add_mod,
      Nat.add_sub_cancel' hple, Nat.add_mod_right, Nat.mod_eq_of_lt hj0]
  rw [hidx, List.getD_eq_getElem order 0 hj0, hj0eq]
  exact hkf

/-! ## Counting the Round-Robin run -/

theorem rrNext_spec : ∀ (fuelN : Nat) (s : RoundRobinState), RRInvP s →
    s.round_robin_order.length ≤ fuelN + s.finished_dataloaders.length →
    (sumLens s.individual_iterators = 0 ∧
      ∃ s' evs, rrNext fuelN s = .stopIteration s' evs) ∨
    (∃ k x s' evs, rrNext fuelN s = .batch [(k, x)] s' evs ∧ RRInvP s' ∧
      sumLens s'.individual_iterators + 1 = sumLens s.individual_iterators ∧
      s'.individual_iterators.length = s.individual_iterators.length) := by
  intro fuelN
  induction fuelN with
  | zero =>
    intro s hinv hfuel
    obtain ⟨hord, hnd, hpos, hsub, hfnd, hfe, hsm⟩ := hinv
    have hkeylen : (keysOf s.individual_iterators).length = s.individual_iterators.length :=
      List.length_map _ _
    have hsub' : ∀ x ∈ s.finished_dataloaders, x ∈ keysOf s.individual_iterators := by
      intro x hx; rw [← hord]; exact hsub x hx
    have hle := nodup_subset_length_le hfnd hsub'
    have hfull : s.finished_dataloaders.length = s.individual_iterators.length := by
      rw [hord, hkeylen] at hfuel
      omega
    left
    constructor
    · apply sumLens_eq_zero hnd
      intro k hk
      apply hfe
      exact mem_of_nodup_length_le hfnd hsub' (by omega) k hk
    · exact ⟨s, [], by simp [rrNext, hfull]⟩
  | succ f ih =>
    intro s hinv hfuel
    obtain ⟨hord, hnd, hpos, hsub, hfnd, hfe, hsm⟩ := hinv
    have hndo : s.round_robin_order.Nodup := by rw [hord]; exact hnd
    have hkeylen : (keysOf s.individual_iterators).length = s.individual_iterators.length :=
      List.length_map _ _
    have hn : 0 < s.round_robin_order.length := by omega
    by_cases hfull : s.finished_dataloaders.length = s.individual_iterators.length
    · left
      have hsub' : ∀ x ∈ s.finished_dataloaders, x ∈ keysOf s.individual_iterators := by
        intro x hx; rw [← hord]; exact hsub x hx
      constructor
      · apply sumLens_eq_zero hnd
        intro k hk
        apply hfe
        exact mem_of_nodup_length_le hfnd hsub' (by omega) k hk
      · exact ⟨s, [], by simp [rrNext, hfull]⟩
    · have hordlen : s.round_robin_order.length = s.individual_iterators.length := by
        rw [hord]; exact hkeylen
      have hlt : s.finished_dataloaders.length < s.round_robin_order.length := by
        have hle := nodup_subset_length_le hfnd hsub
        omega
      have hex : ∃ k ∈ s.round_robin_order, k ∉ s.finished_dataloaders :=
        exists_not_mem_of_length_lt hndo hlt
      obtain ⟨j, hj, hjf, hcyc⟩ := cycleTake_total hndo hex s.cycle_pos
      set c := s.round_robin_order.getD j 0 with hc
      have hcmem : c ∈ keysOf s.individual_iterators := by
        rw [← hord, hc, List.getD_eq_getElem _ 0 hj]
        exact List.getElem_mem hj
      obtain ⟨v, hv⟩ : ∃ v, lookupSrc c s.individual_iterators = some v := by
        have := (lookupSrc_isSome_iff c s.individual_iterators).mpr hcmem
        exact Option.isSome_iff_exists.mp this
      match v, hv with
      | x :: xs, hv =>
        right
        set s1 : RoundRobinState :=
          { s with cur_dataloader := c, cycle_pos := (j + 1) % s.round_robin_order.length, individual_iterators := setSrc c xs s.individual_iterators } with hs1
        refine ⟨c, x, s1, [.query c], ?_, ?_, ?_, ?_⟩
        · simp only [rrNext, if_neg hfull, hcyc, hv, hs1]
        · refine ⟨?_, ?_, ?_, ?_, ?_, ?_, ?_⟩
          · simp [hs1, keysOf_setSrc, hord]
          · simp [hs1, keysOf_setSrc, hnd]
          · simp [hs1, Nat.mod_lt _ hn]
          · simpa [hs1] using hsub
          · simpa [hs1] using hfnd
          · intro k hk
            simp only [hs1] at hk ⊢
            rw [lookupSrc_setSrc_ne (fun h => hjf (by rw [← h]; exact hk)) _ _]
            exact hfe k hk
          · simpa [hs1] using hsm
        · simpa [hs1] using sumLens_setSrc hv
        · simpa [hs1] using length_setSrc c xs s.individual_iterators
      | [], hv =>
        have hsm1 : s.stopping_mechanism ≠ StoppingMechanism.SMALLEST_DATASET_EXHAUSTED := hsm
        by_cases hfull2 : (s.finished_dataloaders ++ [c]).length = s.individual_iterators.length
        · left
          have hnd2 : (s.finished_dataloaders ++ [c]).Nodup := by
            simp [List.nodup_append, hfnd, hjf]
          have hsub2 : ∀ x ∈ s.finished_dataloaders ++ [c], x ∈ keysOf s.individual_iterators := by
            intro x hx
            rcases List.mem_append.mp hx with hx | hx
            · rw [← hord]; exact hsub x hx
            · simp at hx; subst hx; exact hcmem
          constructor
          · apply sumLens_eq_zero hnd
            intro k hk
            have hkfin := mem_of_nodup_length_le hnd2 hsub2 (by omega) k hk
            rcases List.mem_append.mp hkfin with hkf2 | hkf2
            · exact hfe k hkf2
            · simp at hkf2; subst hkf2; exact hv
          · refine ⟨{ s with cur_dataloader := c, cycle_pos := (j + 1) % s.round_robin_order.length, finished_dataloaders := s.finished_dataloaders ++ [c] }, [.query c], ?_⟩
            rw [rrNext]
            simp only [if_neg hfull, hcyc, hv, if_neg hsm1]
            simp only [if_pos hfull2]
        · set s2 : RoundRobinState :=
            { s with cur_dataloader := c, cycle_pos := (j + 1) % s.round_robin_order.length, finished_dataloaders := s.finished_dataloaders ++ [c] } with hs2
          have hinv2 : RRInvP s2 := by
            refine ⟨?_, ?_, ?_, ?_, ?_, ?_, ?_⟩
            · simpa [hs2] using hord
            · simpa [hs2] using hnd
            · simp [hs2, Nat.mod_lt _ hn]
            · intro k hk
              simp only [hs2] at hk ⊢
              rcases List.mem_append.mp hk with hk | hk
              · exact hsub k hk
              · simp at hk; subst hk
                rw [hc, List.getD_eq_getElem _ 0 hj]
                exact List.getElem_mem hj
            · simp [hs2, List.nodup_append, hfnd, hjf]
            · intro k hk
              simp only [hs2] at hk ⊢
              rcases List.mem_append.mp hk with hk | hk
              · exact hfe k hk
              · simp at hk; subst hk; exact hv
            · simpa [hs2] using hsm
          have hfuel2 : s2.round_robin_order.length ≤ f + s2.finished_dataloaders.length := by
            simp only [hs2, List.length_append, List.length_singleton]
            omega
          rcases ih s2 hinv2 hfuel2 with ⟨hz, s', evs, heq⟩ | ⟨k, x, s', evs, heq, hinv', hsum, hlen⟩
          · left
            constructor
            · simpa [hs2] using hz
            · refine ⟨s', .query c :: evs, ?_⟩
              rw [rrNext]
              simp only [if_neg hfull, hcyc, hv, if_neg hsm1]
              simp only [if_neg hfull2]
              simp only [← hs2, heq, RRStep.consEv]
          · right
            refine ⟨k, x, s', .query c :: evs, ?_, hinv', ?_, ?_⟩
            · rw [rrNext]
              simp only [if_neg hfull, hcyc, hv, if_neg hsm1]
              simp only [if_neg hfull2]
              simp only [← hs2, heq, RRStep.consEv]
            · simpa [hs2] using hsum
            · simpa [hs2] using hlen

theorem rrNext_spec_entry (s : RoundRobinState)
    (hfull : s.finished_dataloaders.length = s.individual_iterators.length)
    (fuel : Nat) : rrNext fuel s = .stopIteration s [] := by
  simp [rrNext, hfull]

theorem rrRun_spec : ∀ (fuel : Nat) (s : RoundRobinState), RRInvP s →
    sumLens s.individual_iterators < fuel →
    ∃ recs s', rrRun fuel s = (recs, s', .stopped) ∧
      recs.length = sumLens s.individual_iterators := by
  intro fuel
  induction fuel with
  | zero => intro s _ h; omega
  | succ m ih =>
    intro s hinv hlt
    have hord := hinv.1
    have hkeylen : (keysOf s.individual_iterators).length = s.individual_iterators.length :=
      List.length_map _ _
    have hfuelN : s.round_robin_order.length ≤
        (s.individual_iterators.length + 1) + s.finished_dataloaders.length := by
      rw [hord, hkeylen]
      omega
    rcases rrNext_spec (s.individual_iterators.length + 1) s hinv hfuelN with
      ⟨hz, s', evs, heq⟩ | ⟨k, x, s', evs, heq, hinv', hsum, _⟩
    · refine ⟨[], s', ?_, by simp [hz]⟩
      simp [rrRun, heq]
    · have hlt' : sumLens s'.individual_iterators < m := by omega
      obtain ⟨recs', s'', hrun, hcount⟩ := ih s' hinv' hlt'
      refine ⟨[(k, x)] :: recs', s'', ?_, ?_⟩
      · simp [rrRun, heq, hrun]
      · simp [hcount]
        omega

/-! ## Claim C9 -/

/-- C9: for a Round-Robin iterator constructed with
`ALL_DATASETS_EXHAUSTED` over any finite sources with distinct keys
(default cycle order), the driven run terminates with `StopIteration` and
the total number of records equals the sum of all source lengths; and
concretely, for sources `a` of length 1 and `b` of length 3 (cycle order
`a, b`) the produced key sequence is exactly `a, b, b, b`. -/
theorem C9_roundrobin_all_count_and_order :
    (∀ dls : SrcMap, (keysOf dls).Nodup → dls ≠ [] →
      ∃ s0 recs s', rrInit dls .ALL_DATASETS_EXHAUSTED none = .ok s0 ∧
        rrRun (sumLens dls + 1) s0 = (recs, s', .stopped) ∧
        recs.length = sumLens dls) ∧
    rrInit c9Dls .ALL_DATASETS_EXHAUSTED none =
      .ok ⟨c9Dls, [0, 1], 0, 0, [], .ALL_DATASETS_EXHAUSTED⟩ ∧
    (rrRun 5 ⟨c9Dls, [0, 1], 0, 0, [], .ALL_DATASETS_EXHAUSTED⟩).1.map recKeys =
      [[0], [1], [1], [1]] ∧
    (rrRun 5 ⟨c9Dls, [0, 1], 0, 0, [], .ALL_DATASETS_EXHAUSTED⟩).2.2 = .stopped := by
  refine ⟨?_, by rfl,
    by simp [rrRun, rrNext, cycleTake, lookupSrc, setSrc, RRStep.consEv, c9Dls, recKeys],
    by simp [rrRun, rrNext, cycleTake, lookupSrc, setSrc, RRStep.consEv, c9Dls]⟩
  intro dls hnd hne
  obtain ⟨p, rest, rfl⟩ : ∃ p rest, dls = p :: rest := by
    cases dls with
    | nil => exact absurd rfl hne
    | cons p rest => exact ⟨p, rest, rfl⟩
  set s0 : RoundRobinState :=
    ⟨p :: rest, keysOf (p :: rest), 0, p.1, [], .ALL_DATASETS_EXHAUSTED⟩ with hs0
  have hinit : rrInit (p :: rest) .ALL_DATASETS_EXHAUSTED none = .ok s0 := by
    simp [rrInit, keysOf, hs0]
  have hinv : RRInvP s0 := by
    refine ⟨rfl, hnd, ?_, ?_, List.nodup_nil, ?_, by simp [hs0]⟩
    · simp [hs0, keysOf]
    · intro k hk; simp [hs0] at hk
    · intro k hk; simp [hs0] at hk
  obtain ⟨recs, s', hrun, hcount⟩ :=
    rrRun_spec (sumLens (p :: rest) + 1) s0 hinv (by simp only [hs0]; omega)
  exact ⟨s0, recs, s', hinit, hrun, hcount⟩

/-- Witness for C9: the general count statement instantiated at the
concrete sources `a` (length 1), `b` (length 3). -/
theorem C9_witness :
    ∃ s0 recs s', rrInit c9Dls .ALL_DATASETS_EXHAUSTED none = .ok s0 ∧
      rrRun (sumLens c9Dls + 1) s0 = (recs, s', .stopped) ∧
      recs.length = sumLens c9Dls :=
  C9_roundrobin_all_count_and_order.1 c9Dls (by decide) (by decide)

/-! ## Claim C1: SmallestExhausted record counts -/

theorem adbGo_smallest_ok {dls : SrcMap} {fin : List Key} :
    ∀ entries : SrcMap, (∀ p ∈ entries, p.2 ≠ []) →
      ∃ evs, adbGo .SMALLEST_DATASET_EXHAUSTED dls fin entries =
        .ok (headsOf entries) (tailsOf entries) fin evs := by
  intro entries
  induction entries with
  | nil => intro _; exact ⟨[], rfl⟩
  | cons p rest ih =>
    intro h
    obtain ⟨k, v⟩ := p
    have hv : v ≠ [] := h (k, v) (List.mem_cons_self _ _)
    match v, hv with
    | x :: xs, _ =>
      obtain ⟨evs, heq⟩ := ih (fun q hq => h q (List.mem_cons_of_mem _ hq))
      refine ⟨.query k :: evs, ?_⟩
      simp [adbGo, heq, headsOf, tailsOf]

theorem adbGo_smallest_stopped {dls : SrcMap} {fin : List Key} :
    ∀ entries : SrcMap, (∃ p ∈ entries, p.2 = []) →
      ∃ it evs, adbGo .SMALLEST_DATASET_EXHAUSTED dls fin entries = .stopped it fin evs := by
  intro entries
  induction entries with
  | nil =>
    rintro ⟨p, hp, _⟩
    simp at hp
  | cons q rest ih =>
    rintro ⟨p, hp, hpe⟩
    obtain ⟨k, v⟩ := q
    match v with
    | [] => exact ⟨(k, []) :: rest, [.query k], by simp [adbGo]⟩
    | x :: xs =>
      have hprest : p ∈ rest := by
        rcases List.mem_cons.mp hp with hh | hh
        · exfalso; rw [hh] at hpe; simp at hpe
        · exact hh
      obtain ⟨it, evs, heq⟩ := ih ⟨p, hprest, hpe⟩
      exact ⟨(k, xs) :: it, .query k :: evs, by simp [adbGo, heq]⟩

theorem minLen_le : ∀ (entries : SrcMap), ∀ p ∈ entries, minLen entries ≤ p.2.length := by
  intro entries
  induction entries with
  | nil => intro p hp; simp at hp
  | cons q rest ih =>
    intro p hp
    cases rest with
    | nil =>
      simp at hp
      subst hp
      simp [minLen]
    | cons q' rest' =>
      rcases List.mem_cons.mp hp with hh | hh
      · subst hh
        simp [minLen]
      · have := ih p hh
        simp only [minLen]
        exact le_trans (Nat.min_le_right _ _) this

theorem minLen_pos : ∀ {entries : SrcMap}, entries ≠ [] →
    (∀ p ∈ entries, p.2 ≠ []) → 0 < minLen entries := by
  intro entries
  induction entries with
  | nil => intro h; exact absurd rfl h
  | cons q rest ih =>
    intro _ h
    cases rest with
    | nil =>
      have := h q (List.mem_cons_self _ _)
      simp [minLen]
      exact List.length_pos.mpr this
    | cons q' rest' =>
      have h1 : 0 < q.2.length :=
        List.length_pos.mpr (h q (List.mem_cons_self _ _))
      have h2 : 0 < minLen (q' :: rest') :=
        ih (by simp) (fun p hp => h p (List.mem_cons_of_mem _ hp))
      simp only [minLen, Nat.min_def]
      split_ifs <;> omega

theorem minLen_tailsOf : ∀ {entries : SrcMap}, entries ≠ [] →
    (∀ p ∈ entries, p.2 ≠ []) →
    minLen (tailsOf entries) + 1 = minLen entries := by
  intro entries
  induction entries with
  | nil => intro hne _; exact absurd rfl hne
  | cons q rest ih =>
    intro _ h
    have hq : q.2 ≠ [] := h q (List.mem_cons_self _ _)
    have hqlen : 0 < q.2.length := List.length_pos.mpr hq
    cases rest with
    | nil =>
      simp only [tailsOf, List.map_cons, List.map_nil, minLen, List.length_tail]
      omega
    | cons q' rest' =>
      have ihr := ih (by simp) (fun p hp => h p (List.mem_cons_of_mem _ hp))
      have htl : tailsOf (q :: q' :: rest') =
          (q.1, q.2.tail) :: (q'.1, q'.2.tail) :: tailsOf rest' := by
        simp [tailsOf]
      have htl2 : tailsOf (q' :: rest') = (q'.1, q'.2.tail) :: tailsOf rest' := by
        simp [tailsOf]
      rw [htl]
      rw [show minLen ((q.1, q.2.tail) :: (q'.1, q'.2.tail) :: tailsOf rest') =
          Nat.min q.2.tail.length (minLen ((q'.1, q'.2.tail) :: tailsOf rest')) from rfl]
      rw [show minLen (q :: q' :: rest') =
          Nat.min q.2.length (minLen (q' :: rest')) from rfl]
      rw [← htl2] at *
      rw [List.length_tail]
      simp only [Nat.min_def]
      split_ifs <;> omega

theorem adbRun_smallest_spec : ∀ (fuel : Nat) (s : ADBState),
    s.stopping_mechanism = .SMALLEST_DATASET_EXHAUSTED →
    minLen s.individual_iterators < fuel →
    ∃ recs s' evs, adbRun fuel s = (recs, s', .stopped, evs) ∧
      recs.length = minLen s.individual_iterators := by
  intro fuel
  induction fuel with
  | zero => intro s _ h; omega
  | succ m ih =>
    intro s hsm hlt
    by_cases hne : s.individual_iterators = []
    · refine ⟨[], s, [], ?_, by simp [hne, minLen]⟩
      have hnext : adbNext s = .stopIteration s [] := by
        obtain ⟨d, it, fin, sm⟩ := s
        simp only at hne hsm
        subst hne
        subst hsm
        simp [adbNext, adbGo]
      simp [adbRun, hnext]
    · rcases Nat.eq_zero_or_pos (minLen s.individual_iterators) with hz | hpos
      · obtain ⟨p, hp, hpe⟩ : ∃ p ∈ s.individual_iterators, p.2 = [] := by
          by_contra hc
          push_neg at hc
          have := minLen_pos hne hc
          omega
        obtain ⟨it, evs, heq⟩ :=
          @adbGo_smallest_stopped s.individual_dataloaders
            s.iterators_finished s.individual_iterators ⟨p, hp, hpe⟩
        have hnext : adbNext s =
            .stopIteration { s with individual_iterators := it } evs := by
          simp [adbNext, hsm, heq]
        refine ⟨[], { s with individual_iterators := it }, evs, ?_, by simp [hz]⟩
        simp [adbRun, hnext]
      · have hall : ∀ p ∈ s.individual_iterators, p.2 ≠ [] := by
          intro p hp hpe
          have := minLen_le s.individual_iterators p hp
          rw [hpe] at this
          simp at this
          omega
        obtain ⟨evs, heq⟩ := @adbGo_smallest_ok s.individual_dataloaders
          s.iterators_finished s.individual_iterators hall
        have hrlen : (headsOf s.individual_iterators).length =
            s.individual_iterators.length := List.length_map _ _
        have hrne : headsOf s.individual_iterators ≠ [] := by
          intro hcon
          rw [hcon] at hrlen
          exact hne (List.length_eq_zero.mp hrlen.symm)
        set s2 : ADBState :=
          { s with individual_iterators := tailsOf s.individual_iterators } with hs2
        have hnext : adbNext s = .batch (headsOf s.individual_iterators) s2 evs := by
          simp [adbNext, hsm, heq, hrne, hs2]
        have hmt := minLen_tailsOf hne hall
        obtain ⟨recs', s', evs', hrun, hlen⟩ := ih s2 (by simp [hs2, hsm]) (by
          simp only [hs2]
          omega)
        refine ⟨headsOf s.individual_iterators :: recs', s', evs ++ evs', ?_, ?_⟩
        · simp [adbRun, hnext, hrun]
        · simp only [List.length_cons, hlen, hs2]
          omega

/-- C1 (counterexample): under `SMALLEST_DATASET_EXHAUSTED` the Round-Robin
iterator over sources of lengths 1 and 1 produces 2 records, and the
Weighted-Sampler over sources of lengths 1 and 2 can produce 3 records
(random picks `b, b, a`), while the smallest source has length 1 in both
cases — so the claimed "total equals the size of the smallest source" fails
for these strategies (it holds for All-Sources-Batches, see the amended
theorem). -/
theorem C1_counterexample :
    rrInit c1Dls .SMALLEST_DATASET_EXHAUSTED none = .ok c1RR ∧
    (rrRun 4 c1RR).2.2 = .stopped ∧
    (rrRun 4 c1RR).1.length = 2 ∧
    minLen c1Dls = 1 ∧
    (samplerRun false envUninit 5 [1, 1, 0, 0] c1SP).2.2 = .stopped ∧
    (samplerRun false envUninit 5 [1, 1, 0, 0] c1SP).1.length = 3 ∧
    minLen c1SP.individual_dataloaders = 1 := by
  refine ⟨by rfl, ?_, ?_, by rfl, ?_, ?_, by rfl⟩ <;>
    simp [rrRun, rrNext, cycleTake, lookupSrc, setSrc, RRStep.consEv, c1RR, c1Dls,
      samplerRun, samplerNext, samplerCandidates, markExhausted, exhaustedAt,
      SamplerStep.consEvs, c1SP, envUninit]

/-- C1 (amended): for every All-Sources-Batches iterator constructed with
`SMALLEST_DATASET_EXHAUSTED`, over any finite sources, the driven run ends
with `StopIteration` and the total number of records equals the length of
the smallest source (for Round-Robin and the Weighted-Sampler the total can
be larger, see the counterexample). -/
theorem C1_amended_adb_smallest_count :
    ∀ dls : SrcMap, ∃ recs s' evs,
      adbInit dls .SMALLEST_DATASET_EXHAUSTED =
        .ok ⟨dls, dls, [], .SMALLEST_DATASET_EXHAUSTED⟩ ∧
      adbRun (minLen dls + 1) ⟨dls, dls, [], .SMALLEST_DATASET_EXHAUSTED⟩ =
        (recs, s', .stopped, evs) ∧
      recs.length = minLen dls := by
  intro dls
  obtain ⟨recs, s', evs, hrun, hlen⟩ :=
    adbRun_smallest_spec (minLen dls + 1) ⟨dls, dls, [], .SMALLEST_DATASET_EXHAUSTED⟩
      rfl (by show minLen dls < minLen dls + 1; omega)
  exact ⟨recs, s', evs, by simp [adbInit], hrun, hlen⟩

/-! ## Claim C2: finished sources are not re-queried (Round-Robin) and the
All-Sources-Batches AllExhausted behaviour -/

theorem cycleTake_not_fin {order fin : List Key} : ∀ {fuel pos : Nat} {c : Key} {p : Nat},
    cycleTake order fin fuel pos = some (c, p) → c ∉ fin := by
  intro fuel
  induction fuel with
  | zero => intro pos c p h; simp [cycleTake] at h
  | succ f ih =>
    intro pos c p h
    by_cases hc : order.getD (pos % order.length) 0 ∈ fin
    · simp only [cycleTake, if_pos hc] at h
      exact ih h
    · simp only [cycleTake, if_neg hc] at h
      obtain ⟨hceq, _⟩ := Prod.mk.injEq .. ▸ (Option.some.injEq _ _ ▸ h)
      rw [← hceq]
      exact hc

theorem rrNext_finished_not_queried : ∀ (fuel : Nat) (s : RoundRobinState) (k : Key),
    k ∈ s.finished_dataloaders →
    Ev.query k ∉ (rrNext fuel s).evsOf ∧
    k ∈ (rrNext fuel s).finOf s.finished_dataloaders := by
  intro fuel
  induction fuel with
  | zero =>
    intro s k hk
    rw [rrNext]
    by_cases hfull : s.finished_dataloaders.length = s.individual_iterators.length
    · simp [hfull, RRStep.evsOf, RRStep.finOf, hk]
    · simp only [if_neg hfull]
      cases hcyc : cycleTake s.round_robin_order s.finished_dataloaders
          s.round_robin_order.length s.cycle_pos with
      | none => simp [RRStep.evsOf, RRStep.finOf, hk]
      | some cp =>
        obtain ⟨c, p⟩ := cp
        have hcf : c ∉ s.finished_dataloaders := cycleTake_not_fin hcyc
        have hck : k ≠ c := fun h => hcf (h ▸ hk)
        simp only [hcyc]
        cases hv : lookupSrc c s.individual_iterators with
        | none => simp [RRStep.evsOf, RRStep.finOf, hk]
        | some v =>
          cases v with
          | cons x xs => simp [hv, RRStep.evsOf, RRStep.finOf, hk, hck]
          | nil =>
            simp only [hv]
            by_cases hsm : s.stopping_mechanism = StoppingMechanism.SMALLEST_DATASET_EXHAUSTED
            · simp [hsm, RRStep.evsOf, RRStep.finOf, hk, hck]
            · simp only [if_neg hsm]
              by_cases hfull2 : s.finished_dataloaders.length + 1 =
                  s.individual_iterators.length
              · simp [hfull2, RRStep.evsOf, RRStep.finOf, hck,
                  List.mem_append, hk]
              · simp [hfull2, RRStep.evsOf, RRStep.finOf, hk]
  | succ f ih =>
    intro s k hk
    rw [rrNext]
    by_cases hfull : s.finished_dataloaders.length = s.individual_iterators.length
    · simp [hfull, RRStep.evsOf, RRStep.finOf, hk]
    · simp only [if_neg hfull]
      cases hcyc : cycleTake s.round_robin_order s.finished_dataloaders
          s.round_robin_order.length s.cycle_pos with
      | none => simp [RRStep.evsOf, RRStep.finOf, hk]
      | some cp =>
        obtain ⟨c, p⟩ := cp
        have hcf : c ∉ s.finished_dataloaders := cycleTake_not_fin hcyc
        have hck : k ≠ c := fun h => hcf (h ▸ hk)
        simp only [hcyc]
        cases hv : lookupSrc c s.individual_iterators with
        | none => simp [RRStep.evsOf, RRStep.finOf, hk]
        | some v =>
          cases v with
          | cons x xs => simp [hv, RRStep.evsOf, RRStep.finOf, hk, hck]
          | nil =>
            simp only [hv]
            by_cases hsm : s.stopping_mechanism = StoppingMechanism.SMALLEST_DATASET_EXHAUSTED
            · simp [hsm, RRStep.evsOf, RRStep.finOf, hk, hck]
            · simp only [if_neg hsm]
              by_cases hfull2 : s.finished_dataloaders.length + 1 =
                  s.individual_iterators.length
              · simp [hfull2, RRStep.evsOf, RRStep.finOf, hck,
                  List.mem_append, hk]
              · simp only [List.length_append, List.length_singleton]
                rw [if_neg hfull2]
                have hih := ih { s with
                  cur_dataloader := c,
                  cycle_pos := p,
                  finished_dataloaders := s.finished_dataloaders ++ [c] } k
                  (by simp [List.mem_append, hk])
                cases hrec : rrNext f { s with
                  cur_dataloader := c,
                  cycle_pos := p,
                  finished_dataloaders := s.finished_dataloaders ++ [c] } with
                | batch r s' evs =>
                  rw [hrec] at hih
                  simp only [RRStep.evsOf, RRStep.finOf] at hih
                  simp [RRStep.consEv, RRStep.evsOf, RRStep.finOf, hck, hih.1, hih.2]
                | stopIteration s' evs =>
                  rw [hrec] at hih
                  simp only [RRStep.evsOf, RRStep.finOf] at hih
                  simp [RRStep.consEv, RRStep.evsOf, RRStep.finOf, hck, hih.1, hih.2]
                | hang =>
                  simp [hrec, RRStep.consEv, RRStep.evsOf, RRStep.finOf, hk]
                | keyError =>
                  simp [hrec, RRStep.consEv, RRStep.evsOf, RRStep.finOf, hk]

theorem adbGo_all_shape {dls : SrcMap} : ∀ (entries : SrcMap) (fin : List Key),
    (keysOf entries).Nodup →
    ∃ r it evs, adbGo .ALL_DATASETS_EXHAUSTED dls fin entries = .ok r it fin evs ∧
      keysOf it = keysOf entries ∧
      (∀ k ∈ recKeys r, k ∈ keysOf entries) ∧
      (∀ k, lookupSrc k entries = some [] →
        k ∉ recKeys r ∧ lookupSrc k it = some []) := by
  intro entries
  induction entries with
  | nil =>
    intro fin _
    exact ⟨[], [], [], rfl, rfl, by simp [recKeys], by simp [lookupSrc]⟩
  | cons q rest ih =>
    intro fin hnd
    obtain ⟨k0, v⟩ := q
    have hnd' : (keysOf rest).Nodup := by
      simp only [keysOf, List.map_cons, List.nodup_cons] at hnd
      exact hnd.2
    have hk0 : k0 ∉ keysOf rest := by
      simp only [keysOf, List.map_cons, List.nodup_cons] at hnd
      exact hnd.1
    obtain ⟨r, it, evs, heq, hkeys, hrsub, hprop⟩ := ih fin hnd'
    cases v with
    | cons x xs =>
      refine ⟨(k0, x) :: r, (k0, xs) :: it, .query k0 :: evs, ?_, ?_, ?_, ?_⟩
      · simp [adbGo, heq]
      · simp [keysOf, hkeys]
        rw [show List.map Prod.fst it = keysOf it from rfl, hkeys]
        rfl
      · intro k hk
        simp only [recKeys, List.map_cons, List.mem_cons] at hk
        rcases hk with hk | hk
        · simp [keysOf, hk]
        · have := hrsub k hk
          simp only [keysOf, List.map_cons, List.mem_cons]
          right
          simpa [keysOf] using this
      · intro k hke
        have hkne : k ≠ k0 := by
          intro h
          subst h
          simp [lookupSrc] at hke
        have hke' : lookupSrc k rest = some [] := by
          have : k0 ≠ k := fun h => hkne h.symm
          simpa [lookupSrc, this] using hke
        obtain ⟨hnr, hni⟩ := hprop k hke'
        constructor
        · simp only [recKeys, List.map_cons, List.mem_cons]
          rintro (h | h)
          · exact hkne h
          · exact hnr (by simpa [recKeys] using h)
        · have : k0 ≠ k := fun h => hkne h.symm
          simpa [lookupSrc, this] using hni
    | nil =>
      refine ⟨r, (k0, []) :: it, .query k0 :: evs, ?_, ?_, ?_, ?_⟩
      · simp [adbGo, heq]
      · simp [keysOf]
        rw [show List.map Prod.fst it = keysOf it from rfl, hkeys]
        rfl
      · intro k hk
        have := hrsub k hk
        simp only [keysOf, List.map_cons, List.mem_cons]
        right
        simpa [keysOf] using this
      · intro k hke
        by_cases hkk : k = k0
        · subst hkk
          constructor
          · intro hmem
            exact hk0 (by simpa [keysOf] using hrsub k hmem)
          · simp [lookupSrc]
        · have hko : k0 ≠ k := fun h => hkk h.symm
          have hke' : lookupSrc k rest = some [] := by
            simpa [lookupSrc, hko] using hke
          obtain ⟨hnr, hni⟩ := hprop k hke'
          exact ⟨hnr, by simpa [lookupSrc, hko] using hni⟩

theorem adbRun_all_omits : ∀ (fuel : Nat) (s : ADBState) (k : Key),
    s.stopping_mechanism = .ALL_DATASETS_EXHAUSTED →
    (keysOf s.individual_iterators).Nodup →
    lookupSrc k s.individual_iterators = some [] →
    ∀ r ∈ (adbRun fuel s).1, k ∉ recKeys r := by
  intro fuel
  induction fuel with
  | zero =>
    intro s k _ _ _ r hr
    simp [adbRun] at hr
  | succ m ih =>
    intro s k hsm hnd hke
    obtain ⟨r0, it, evs, heq, hkeys, _, hprop⟩ :=
      @adbGo_all_shape s.individual_dataloaders s.individual_iterators
        s.iterators_finished hnd
    obtain ⟨hnr, hni⟩ := hprop k hke
    by_cases hr0 : r0 = []
    · have hnext : adbNext s = .stopIteration
          { s with individual_iterators := it } evs := by
        simp [adbNext, hsm, heq, hr0]
      intro r hr
      simp [adbRun, hnext] at hr
    · have hnext : adbNext s = .batch r0 { s with individual_iterators := it } evs := by
        simp [adbNext, hsm, heq, hr0]
      intro r hr
      simp only [adbRun, hnext] at hr
      rcases List.mem_cons.mp hr with hh | hh
      · subst hh; exact hnr
      · exact ih { s with individual_iterators := it } k (by simp [hsm])
          (by simpa [hkeys] using hnd) (by simpa using hni) r hh

/-- C2 (counterexample): over sources `0 ↦ [0]`, `1 ↦ [1,2,3]` under
`ALL_DATASETS_EXHAUSTED`, the first All-Sources-Batches call drains source
0; afterwards source 0 is exhausted (its handle is empty) and its
exhaustion was absorbed by the stopping-mode logic, yet it is never added
to `iterators_finished`, and the second call invokes `next()` on source 0's
handle again (a `query 0` event) — contradicting both the never-re-queried
invariant and the "flagged finished" wording (the batch is still omitted
from the record). -/
theorem C2_counterexample :
    adbNext c2ADB = .batch [(0, 0), (1, 1)] c2Mid [.query 0, .query 1] ∧
    adbNext c2Mid = .batch [(1, 2)]
      ⟨[(0, [0]), (1, [1, 2, 3])], [(0, []), (1, [3])], [], .ALL_DATASETS_EXHAUSTED⟩
      [.query 0, .query 1] ∧
    lookupSrc 0 c2Mid.individual_iterators = some [] ∧
    c2Mid.iterators_finished = [] ∧
    Ev.query 0 ∈ [Ev.query 0, Ev.query 1] ∧
    (0 : Key) ∉ recKeys [(1, 2)] := by
  refine ⟨?_, ?_, by rfl, by rfl, by simp, by simp [recKeys]⟩ <;>
    simp [adbNext, adbGo, lookupSrc, c2ADB, c2Mid]

/-- C2 (amended): a source that appears in the Round-Robin finished list is
never queried again by any later `__next__` call (in any stopping mode) and
stays in the finished list; for All-Sources-Batches under
`ALL_DATASETS_EXHAUSTED` an exhausted (drained) source is never flagged,
and its handle is re-queried on every later call, but the source is
omitted from the current and all future records.  (The Weighted-Sampler
with `weights=None` likewise re-queries exhausted sources, see C6.) -/
theorem C2_amended_no_requery :
    (∀ (fuel : Nat) (s : RoundRobinState) (k : Key),
      k ∈ s.finished_dataloaders →
      Ev.query k ∉ (rrNext fuel s).evsOf ∧
      k ∈ (rrNext fuel s).finOf s.finished_dataloaders) ∧
    (∀ (fuel : Nat) (s : ADBState) (k : Key),
      s.stopping_mechanism = .ALL_DATASETS_EXHAUSTED →
      (keysOf s.individual_iterators).Nodup →
      lookupSrc k s.individual_iterators = some [] →
      ∀ r ∈ (adbRun fuel s).1, k ∉ recKeys r) :=
  ⟨rrNext_finished_not_queried, adbRun_all_omits⟩

/-- Witness for C2: the amended statement applied to a Round-Robin state
with source 0 finished and to the concrete All-Sources-Batches state
`c2Mid` with source 0 drained. -/
theorem C2_witness :
    (Ev.query 0 ∉ (rrNext 3 c2RRFin).evsOf ∧
      0 ∈ (rrNext 3 c2RRFin).finOf c2RRFin.finished_dataloaders) ∧
    (∀ r ∈ (adbRun 5 c2Mid).1, (0 : Key) ∉ recKeys r) :=
  ⟨C2_amended_no_requery.1 3 c2RRFin 0 (by simp [c2RRFin]),
   C2_amended_no_requery.2 5 c2Mid 0 (by rfl) (by simp [c2Mid, keysOf]) (by rfl)⟩

/-! ## Claim C3: RestartUntilAllExhausted semantics -/

theorem adbGo_restart_ok_ne {dls : SrcMap} :
    ∀ (entries : SrcMap) (fin : List Key) {r : Record} {it : SrcMap} {f : List Key}
      {e : List Ev},
      adbGo .RESTART_UNTIL_ALL_DATASETS_EXHAUSTED dls fin entries = .ok r it f e →
      entries ≠ [] → r ≠ [] := by
  intro entries
  induction entries with
  | nil => intro fin r it f e _ hne; exact absurd rfl hne
  | cons q rest _ =>
    intro fin r it f e heq _
    obtain ⟨k0, v⟩ := q
    cases v with
    | cons x xs =>
      cases hrest : adbGo .RESTART_UNTIL_ALL_DATASETS_EXHAUSTED dls fin rest with
      | ok r' it' f' e' =>
        rw [adbGo, hrest] at heq
        simp at heq
        obtain ⟨hr, _⟩ := heq
        rw [← hr]
        simp
      | stopped it' f' e' => rw [adbGo, hrest] at heq; simp at heq
      | keyError => rw [adbGo, hrest] at heq; simp at heq
    | nil =>
      by_cases hfl : (if k0 ∈ fin then fin else fin ++ [k0]).length = dls.length
      · simp [adbGo, hfl] at heq
      · cases hdl : lookupSrc k0 dls with
        | none => simp [adbGo, hfl, hdl] at heq
        | some w =>
          cases w with
          | nil => simp [adbGo, hfl, hdl] at heq
          | cons y ys =>
            cases hrest : adbGo .RESTART_UNTIL_ALL_DATASETS_EXHAUSTED dls
                (if k0 ∈ fin then fin else fin ++ [k0]) rest with
            | ok r' it' f' e' =>
              simp [adbGo, hfl, hdl, hrest] at heq
              obtain ⟨hr, _⟩ := heq
              rw [← hr]
              simp
            | stopped it' f' e' => simp [adbGo, hfl, hdl, hrest] at heq
            | keyError => simp [adbGo, hfl, hdl, hrest] at heq

theorem adbGo_restart_stopped_full {dls : SrcMap} :
    ∀ (entries : SrcMap) (fin : List Key) {it : SrcMap} {f : List Key} {e : List Ev},
      adbGo .RESTART_UNTIL_ALL_DATASETS_EXHAUSTED dls fin entries = .stopped it f e →
      fin.Nodup → (∀ x ∈ fin, x ∈ keysOf dls) →
      (∀ q ∈ dls, q.2 ≠ []) →
      (∀ x ∈ keysOf entries, x ∈ keysOf dls) →
      f.length = dls.length ∧ f.Nodup ∧ (∀ x ∈ f, x ∈ keysOf dls) := by
  intro entries
  induction entries with
  | nil =>
    intro fin it f e heq _ _ _ _
    simp [adbGo] at heq
  | cons q rest ih =>
    intro fin it f e heq hfnd hfsub hne hesub
    obtain ⟨k0, v⟩ := q
    have hk0 : k0 ∈ keysOf dls := hesub k0 (by simp [keysOf])
    have hrsub : ∀ x ∈ keysOf rest, x ∈ keysOf dls := by
      intro x hx
      exact hesub x (by simp [keysOf] at hx ⊢; right; exact hx)
    cases v with
    | cons x xs =>
      cases hrest : adbGo .RESTART_UNTIL_ALL_DATASETS_EXHAUSTED dls fin rest with
      | ok r' it' f' e' => rw [adbGo, hrest] at heq; simp at heq
      | stopped it' f' e' =>
        rw [adbGo, hrest] at heq
        simp at heq
        obtain ⟨_, hf, _⟩ := heq
        rw [← hf]
        exact ih fin hrest hfnd hfsub hne hrsub
      | keyError => rw [adbGo, hrest] at heq; simp at heq
    | nil =>
      have hfnd' : (if k0 ∈ fin then fin else fin ++ [k0]).Nodup := by
        by_cases hmem : k0 ∈ fin
        · simpa [hmem] using hfnd
        · simp [hmem, List.nodup_append, hfnd]
      have hfsub' : ∀ x ∈ (if k0 ∈ fin then fin else fin ++ [k0]), x ∈ keysOf dls := by
        by_cases hmem : k0 ∈ fin
        · simpa [hmem] using hfsub
        · simp only [hmem, ite_false, if_neg, not_false_iff]
          intro x hx
          rcases List.mem_append.mp hx with hx | hx
          · exact hfsub x hx
          · simp at hx; subst hx; exact hk0
      by_cases hfl : (if k0 ∈ fin then fin else fin ++ [k0]).length = dls.length
      · simp [adbGo, hfl] at heq
        obtain ⟨_, hf, _⟩ := heq
        rw [← hf]
        exact ⟨hfl, hfnd', hfsub'⟩
      · obtain ⟨w, hdl⟩ : ∃ w, lookupSrc k0 dls = some w :=
          Option.isSome_iff_exists.mp ((lookupSrc_isSome_iff k0 dls).mpr hk0)
        have hwne : w ≠ [] := hne (k0, w) (lookupSrc_mem hdl)
        cases w with
        | nil => exact absurd rfl hwne
        | cons y ys =>
          cases hrest : adbGo .RESTART_UNTIL_ALL_DATASETS_EXHAUSTED dls
              (if k0 ∈ fin then fin else fin ++ [k0]) rest with
          | ok r' it' f' e' => simp [adbGo, hfl, hdl, hrest] at heq
          | stopped it' f' e' =>
            simp [adbGo, hfl, hdl, hrest] at heq
            obtain ⟨_, hf, _⟩ := heq
            rw [← hf]
            exact ih _ hrest hfnd' hfsub' hne hrsub
          | keyError => simp [adbGo, hfl, hdl, hrest] at heq

theorem samplerCandidates_subset_names (s : SamplerState) :
    ∀ x ∈ samplerCandidates s, x ∈ s.iterator_names := by
  intro x hx
  rw [samplerCandidates] at hx
  by_cases hc : s.stopping_mechanism ≠ .WRAP_AROUND_UNTIL_KILLED ∧ s.iterator_weights.isSome
  · rw [if_pos hc] at hx
    obtain ⟨p, hp, hpe⟩ := List.mem_filterMap.mp hx
    have := List.mem_zip hp
    by_cases hb : p.2
    · simp [hb] at hpe
    · simp only [Bool.not_eq_true] at hb
      rw [hb] at hpe
      simp at hpe
      rw [← hpe]
      exact this.1
  · rw [if_neg hc] at hx
    exact hx

theorem adbNext_restart_stop_full (s : ADBState)
    (hsm : s.stopping_mechanism = .RESTART_UNTIL_ALL_DATASETS_EXHAUSTED)
    (hfnd : s.iterators_finished.Nodup)
    (hfsub : ∀ x ∈ s.iterators_finished, x ∈ keysOf s.individual_dataloaders)
    (hne : ∀ q ∈ s.individual_dataloaders, q.2 ≠ [])
    (hkeys : keysOf s.individual_iterators = keysOf s.individual_dataloaders) :
    ∀ s' evs, adbNext s = .stopIteration s' evs →
      ∀ k ∈ keysOf s.individual_dataloaders, k ∈ s'.iterators_finished := by
  intro s' evs heq k hk
  cases hgo : adbGo s.stopping_mechanism s.individual_dataloaders s.iterators_finished
      s.individual_iterators with
  | ok r it f e =>
    rw [hsm] at hgo
    by_cases hr : r = []
    · have hent : s.individual_iterators ≠ [] → r ≠ [] :=
        adbGo_restart_ok_ne s.individual_iterators s.iterators_finished hgo
      by_cases he : s.individual_iterators = []
      · rw [he] at hkeys
        simp [keysOf] at hkeys
        rw [hkeys] at hk
        simp [keysOf] at hk
      · exact absurd hr (hent he)
    · have hb : adbNext s = .batch r { s with individual_iterators := it, iterators_finished := f } e := by
        simp [adbNext, hsm, hgo, hr]
      rw [hb] at heq
      simp at heq
  | stopped it f e =>
    rw [hsm] at hgo
    obtain ⟨hlen, hnd, hsub⟩ := adbGo_restart_stopped_full s.individual_iterators
      s.iterators_finished hgo hfnd hfsub hne (by rw [hkeys]; exact fun x h => h)
    have hnext : adbNext s = .stopIteration { s with individual_iterators := it, iterators_finished := f } e := by
      simp [adbNext, hsm, hgo]
    rw [hnext] at heq
    simp only [ADBStep.stopIteration.injEq] at heq
    rw [← heq.1]
    have hklen : (keysOf s.individual_dataloaders).length =
        s.individual_dataloaders.length := List.length_map _ _
    exact mem_of_nodup_length_le hnd hsub (by omega) k hk
  | keyError =>
    rw [hsm] at hgo
    have hke : adbNext s = .keyError := by simp [adbNext, hsm, hgo]
    rw [hke] at heq
    simp at heq

theorem samplerNext_restart_stop_full (enforce : Bool) (env : DistEnv) (fuel : Nat)
    (oracle : List Nat) (s : SamplerState)
    (hsm : s.stopping_mechanism = .RESTART_UNTIL_ALL_DATASETS_EXHAUSTED)
    (hfnd : s.iterators_finished.Nodup)
    (hfsub : ∀ x ∈ s.iterators_finished, x ∈ keysOf s.individual_iterators)
    (hknd : (keysOf s.individual_iterators).Nodup)
    (hnames : ∀ x ∈ s.iterator_names, x ∈ keysOf s.individual_iterators)
    (hne : ∀ q ∈ s.individual_dataloaders, q.2 ≠ []) :
    ∀ s' o' evs, samplerNext enforce env fuel oracle s = .stopIteration s' o' evs →
      ∀ k ∈ keysOf s.individual_iterators, k ∈ s'.iterators_finished := by
  intro s' o' evs heq k hk
  have hklen : (keysOf s.individual_iterators).length =
      s.individual_iterators.length := List.length_map _ _
  by_cases hful : s.iterators_finished.length = s.individual_iterators.length
  · have hstep : samplerNext enforce env fuel oracle s = .stopIteration s oracle [] := by
      rw [samplerNext]
      simp only [hsm, reduceCtorEq, false_and, if_false, if_true, and_false, ite_false, ite_true,
        eq_self_iff_true, true_and, if_pos hful]
    rw [hstep] at heq
    simp only [SamplerStep.stopIteration.injEq] at heq
    rw [← heq.1]
    exact mem_of_nodup_length_le hfnd hfsub (by omega) k hk
  · cases hcand : samplerCandidates s with
    | nil =>
      have hstep : samplerNext enforce env fuel oracle s = .keyError := by
        rw [samplerNext]
        simp only [hsm, reduceCtorEq, false_and, if_false, if_true, and_false, ite_false, ite_true,
          eq_self_iff_true, true_and, if_neg hful, hcand]
      rw [hstep] at heq
      simp at heq
    | cons c0 cs =>
      have hlt : oracle.headD 0 % (c0 :: cs).length < (c0 :: cs).length :=
        Nat.mod_lt _ (by simp)
      set sel := (c0 :: cs).getD (oracle.headD 0 % (c0 :: cs).length) 0 with hsel
      have hselc : sel ∈ samplerCandidates s := by
        rw [hcand, hsel, List.getD_eq_getElem _ 0 hlt]
        exact List.getElem_mem hlt
      have hselk : sel ∈ keysOf s.individual_iterators :=
        hnames sel (samplerCandidates_subset_names s sel hselc)
      obtain ⟨v, hv⟩ : ∃ v, lookupSrc sel s.individual_iterators = some v :=
        Option.isSome_iff_exists.mp ((lookupSrc_isSome_iff _ _).mpr hselk)
      cases v with
      | cons x xs =>
        have hstep : samplerNext enforce env fuel oracle s = .batch [(sel, x)]
            { s with individual_iterators := setSrc sel xs s.individual_iterators }
            oracle.tail
            ((if enforce ∧ env.is_available = true ∧ env.is_initialized = true then
              [Ev.broadcast] else []) ++ [.query sel]) := by
          rw [samplerNext]
          simp only [hsm, reduceCtorEq, false_and, if_false, if_true, and_false, ite_false, ite_true,
            eq_self_iff_true, true_and, if_neg hful, hcand, ← hsel, hv]
        rw [hstep] at heq
        simp at heq
      | nil =>
        by_cases hfl : (if sel ∈ s.iterators_finished then s.iterators_finished
            else s.iterators_finished ++ [sel]).length = s.individual_iterators.length
        · have hstep : samplerNext enforce env fuel oracle s = .stopIteration
              { s with iterators_finished := if sel ∈ s.iterators_finished then
                  s.iterators_finished else s.iterators_finished ++ [sel] }
              oracle.tail
              ((if enforce ∧ env.is_available = true ∧ env.is_initialized = true then
                [Ev.broadcast] else []) ++ [.query sel]) := by
            rw [samplerNext]
            simp only [hsm, reduceCtorEq, false_and, if_false, if_true, and_false, ite_false, ite_true,
              eq_self_iff_true, true_and, if_neg hful, hcand, ← hsel, hv, if_pos hfl]
          rw [hstep] at heq
          simp only [SamplerStep.stopIteration.injEq] at heq
          rw [← heq.1]
          have hfnd' : (if sel ∈ s.iterators_finished then s.iterators_finished
              else s.iterators_finished ++ [sel]).Nodup := by
            by_cases hmem : sel ∈ s.iterators_finished
            · simpa [hmem] using hfnd
            · simp [hmem, List.nodup_append, hfnd]
          have hfsub' : ∀ x ∈ (if sel ∈ s.iterators_finished then s.iterators_finished
              else s.iterators_finished ++ [sel]), x ∈ keysOf s.individual_iterators := by
            by_cases hmem : sel ∈ s.iterators_finished
            · simpa [hmem] using hfsub
            · simp only [hmem, ite_false, if_neg, not_false_iff]
              intro x hx
              rcases List.mem_append.mp hx with hx | hx
              · exact hfsub x hx
              · simp at hx; subst hx; exact hselk
          exact mem_of_nodup_length_le hfnd' hfsub' (by omega) k hk
        · cases hdl : lookupSrc sel s.individual_dataloaders with
          | none =>
            have hstep : samplerNext enforce env fuel oracle s = .keyError := by
              rw [samplerNext]
              simp only [hsm, reduceCtorEq, false_and, if_false, if_true, and_false, ite_false, ite_true,
                eq_self_iff_true, true_and, if_neg hful, hcand, ← hsel, hv,
                if_neg hfl, hdl]
            rw [hstep] at heq
            simp at heq
          | some w =>
            have hwne : w ≠ [] := hne (sel, w) (lookupSrc_mem hdl)
            cases w with
            | nil => exact absurd rfl hwne
            | cons y ys =>
              have hstep : samplerNext enforce env fuel oracle s = .batch [(sel, y)] { s with iterators_finished := if sel ∈ s.iterators_finished then s.iterators_finished else s.iterators_finished ++ [sel], individual_iterators := setSrc sel ys s.individual_iterators } oracle.tail ((if enforce ∧ env.is_available = true ∧ env.is_initialized = true then [Ev.broadcast] else []) ++ [.query sel, .restartIter sel, .query sel]) := by
                rw [samplerNext]
                simp only [hsm, reduceCtorEq, false_and, if_false, if_true, and_false, ite_false, ite_true,
                  eq_self_iff_true, true_and, if_neg hful, hcand, ← hsel, hv,
                  if_neg hfl, hdl]
              rw [hstep] at heq
              simp at heq

/-- C3 (counterexample): (i) over sources `0 ↦ [0]`, `1 ↦ [10,11]` the
All-Sources-Batches restart-mode run re-creates source 0's iterator twice
(not at most once) before ending; (ii) with an EMPTY source 0 next to a
nonempty source 1, the All-Sources-Batches restart run ends immediately
with only source 0 in the finished set and source 1 never exhausted
(its two batches still pending), and (iii) the Weighted-Sampler does the
same — so the sequence does not end "exactly when every source has reached
permanent finish". -/
theorem C3_counterexample :
    countEv (.restartIter 0) (adbRun 5 c3ADB).2.2.2 = 2 ∧
    (adbRun 5 c3ADB).2.2.1 = .stopped ∧
    (adbRun 5 c3ADBEmpty).1 = [] ∧
    (adbRun 5 c3ADBEmpty).2.2.1 = .stopped ∧
    (adbRun 5 c3ADBEmpty).2.1.iterators_finished = [0] ∧
    lookupSrc 1 (adbRun 5 c3ADBEmpty).2.1.individual_iterators = some [1, 2] ∧
    samplerNext false envUninit 3 [0] c3SPEmpty =
      .stopIteration ⟨[(0, []), (1, [1])], [(0, []), (1, [1])], [0, 1], none,
        [false, false], .RESTART_UNTIL_ALL_DATASETS_EXHAUSTED, [0]⟩ []
        [.query 0, .restartIter 0, .query 0] := by
  refine ⟨?_, ?_, ?_, ?_, ?_, ?_, ?_⟩ <;>
    simp [adbRun, adbNext, adbGo, lookupSrc, setSrc, countEv, c3ADB, c3ADBEmpty,
      samplerNext, samplerCandidates, c3SPEmpty, envUninit]

/-- C3 (amended): under `RESTART_UNTIL_ALL_DATASETS_EXHAUSTED` a source may
be restarted arbitrarily many times (it is recorded in the finished list
only once, and is restarted again whenever it exhausts while the finished
list is not yet full); provided every source is nonempty, whenever the
All-Sources-Batches or Weighted-Sampler iterator signals end-of-sequence,
every configured source key is in the finished list at that moment (the
counterexample shows that with an empty source the run can end earlier,
and that restarts are not bounded by one). -/
theorem C3_amended_restart_end :
    (∀ s : ADBState,
      s.stopping_mechanism = .RESTART_UNTIL_ALL_DATASETS_EXHAUSTED →
      s.iterators_finished.Nodup →
      (∀ x ∈ s.iterators_finished, x ∈ keysOf s.individual_dataloaders) →
      (∀ q ∈ s.individual_dataloaders, q.2 ≠ []) →
      keysOf s.individual_iterators = keysOf s.individual_dataloaders →
      ∀ s' evs, adbNext s = .stopIteration s' evs →
        ∀ k ∈ keysOf s.individual_dataloaders, k ∈ s'.iterators_finished) ∧
    (∀ (enforce : Bool) (env : DistEnv) (fuel : Nat) (oracle : List Nat)
      (s : SamplerState),
      s.stopping_mechanism = .RESTART_UNTIL_ALL_DATASETS_EXHAUSTED →
      s.iterators_finished.Nodup →
      (∀ x ∈ s.iterators_finished, x ∈ keysOf s.individual_iterators) →
      (keysOf s.individual_iterators).Nodup →
      (∀ x ∈ s.iterator_names, x ∈ keysOf s.individual_iterators) →
      (∀ q ∈ s.individual_dataloaders, q.2 ≠ []) →
      ∀ s' o' evs, samplerNext enforce env fuel oracle s = .stopIteration s' o' evs →
        ∀ k ∈ keysOf s.individual_iterators, k ∈ s'.iterators_finished) :=
  ⟨adbNext_restart_stop_full, samplerNext_restart_stop_full⟩

/-- Witness for C3: the amended statement applied to concrete end states of
both iterators. -/
theorem C3_witness :
    (∀ k ∈ keysOf c3WitADB.individual_dataloaders, k ∈ c3WitADB.iterators_finished) ∧
    (∀ k ∈ keysOf c3WitSP.individual_iterators, k ∈ c3WitSP.iterators_finished) :=
  ⟨fun k hk => C3_amended_restart_end.1 c3WitADB rfl (by simp [c3WitADB])
      (by simp [c3WitADB, keysOf]) (by simp [c3WitADB]) (by rfl) c3WitADB
      [.query 0] (by simp [adbNext, adbGo, c3WitADB]) k hk,
   fun k hk => C3_amended_restart_end.2 false envUninit 3 [0] c3WitSP rfl
      (by simp [c3WitSP]) (by simp [c3WitSP, keysOf]) (by simp [c3WitSP, keysOf])
      (by simp [c3WitSP, keysOf]) (by simp [c3WitSP]) c3WitSP [0] []
      (by rw [samplerNext]; simp [c3WitSP]) k hk⟩

/-! ## Claim C6: sampler candidate selection -/

theorem boolGetD_set_ne : ∀ (l : List Bool) (i j : Nat), i ≠ j → ∀ (a d : Bool),
    (l.set i a).getD j d = l.getD j d := by
  intro l
  induction l with
  | nil => intro i j _ a d; simp
  | cons x xs ih =>
    intro i j hij a d
    cases i with
    | zero =>
      cases j with
      | zero => exact absurd rfl hij
      | succ j' => simp [List.set, List.getD]
    | succ i' =>
      cases j with
      | zero => simp [List.set, List.getD]
      | succ j' =>
        simp only [List.set, List.getD_cons_succ]
        exact ih i' j' (fun h => hij (by rw [h])) a d

theorem list_set_of_le : ∀ (l : List Bool) (i : Nat), l.length ≤ i → ∀ a : Bool,
    l.set i a = l := by
  intro l
  induction l with
  | nil => intro i _ a; simp
  | cons x xs ih =>
    intro i hi a
    cases i with
    | zero => simp at hi
    | succ i' =>
      simp only [List.set]
      rw [ih i' (by simpa using hi) a]

theorem exhaustedAt_markExhausted_ne {s : SamplerState} {sel k : Key}
    (hnd : s.iterator_names.Nodup)
    (hlen : s.iterator_is_exhausted.length = s.iterator_names.length)
    (hne : k ≠ sel) :
    exhaustedAt (markExhausted s sel) k = exhaustedAt s k := by
  show (s.iterator_is_exhausted.set (s.iterator_names.indexOf sel) true).getD
      (s.iterator_names.indexOf k) false =
    s.iterator_is_exhausted.getD (s.iterator_names.indexOf k) false
  by_cases hks : s.iterator_names.indexOf sel = s.iterator_names.indexOf k
  · have hsel : sel ∉ s.iterator_names := by
      intro hmem
      have hslt : s.iterator_names.indexOf sel < s.iterator_names.length :=
        List.indexOf_lt_length.mpr hmem
      have hklt : s.iterator_names.indexOf k < s.iterator_names.length := by
        rw [← hks]; exact hslt
      have hkmem : k ∈ s.iterator_names := List.indexOf_lt_length.mp hklt
      have h1 := List.getElem_indexOf hslt
      have h2 := List.getElem_indexOf hklt
      simp only [hks] at h1
      exact hne (h1.symm.trans h2).symm
    have hidx : s.iterator_names.indexOf sel = s.iterator_names.length :=
      List.indexOf_eq_length.mpr hsel
    rw [list_set_of_le _ _ (by rw [hidx, hlen]) true]
  · rw [boolGetD_set_ne _ _ _ hks]

theorem samplerExhInv_markExhausted {s : SamplerState} {sel : Key}
    (hnd : s.iterator_names.Nodup)
    (hlen : s.iterator_is_exhausted.length = s.iterator_names.length)
    (hinv : SamplerExhInv s)
    (hsel : lookupSrc sel s.individual_iterators = some []) :
    SamplerExhInv (markExhausted s sel) := by
  intro k hk
  by_cases hke : k = sel
  · subst hke
    exact hsel
  · rw [exhaustedAt_markExhausted_ne hnd hlen hke] at hk
    exact hinv k hk

theorem zipFilter_mem : ∀ (ns : List Key) (bs : List Bool) (k : Key), ns.Nodup →
    ns.length = bs.length →
    (k ∈ (ns.zip bs).filterMap (fun p => if p.2 then none else some p.1) ↔
      k ∈ ns ∧ bs.getD (ns.indexOf k) false = false) := by
  intro ns
  induction ns with
  | nil => intro bs k _ _; simp
  | cons n ns' ih =>
    intro bs k hnd hlen
    cases bs with
    | nil => simp at hlen
    | cons b bs' =>
      have hnd' : ns'.Nodup := (List.nodup_cons.mp hnd).2
      have hn : n ∉ ns' := (List.nodup_cons.mp hnd).1
      have hlen' : ns'.length = bs'.length := by simpa using hlen
      by_cases hkn : k = n
      · subst hkn
        rw [List.indexOf_cons_self]
        cases b with
        | true =>
          simp only [List.zip_cons_cons, List.filterMap_cons, ite_true, if_true]
          constructor
          · intro hmem
            exfalso
            have := (ih bs' k hnd' hlen').mp hmem
            exact hn this.1
          · intro h
            simp [List.getD] at h
        | false =>
          simp [List.getD]
      · have hnk : n ≠ k := fun h => hkn h.symm
        rw [List.indexOf_cons_ne _ hnk]
        have hstep := ih bs' k hnd' hlen'
        cases b with
        | true =>
          have hfc : List.filterMap (fun p => if p.2 = true then none else some p.1)
              ((n, true) :: ns'.zip bs') =
              List.filterMap (fun p => if p.2 = true then none else some p.1) (ns'.zip bs') := rfl
          rw [List.zip_cons_cons, hfc, hstep]
          simp [List.getD_cons_succ, hkn]
        | false =>
          have hfc : List.filterMap (fun p => if p.2 = true then none else some p.1)
              ((n, false) :: ns'.zip bs') =
              n :: List.filterMap (fun p => if p.2 = true then none else some p.1) (ns'.zip bs') := rfl
          rw [List.zip_cons_cons, hfc]
          simp only [List.mem_cons, hkn, false_or]
          rw [hstep]
          simp [List.getD_cons_succ, hkn]

theorem samplerNext_plain_batch_cases (enforce : Bool) (env : DistEnv) (fuel : Nat)
    (oracle : List Nat) (s : SamplerState)
    (hsm : s.stopping_mechanism = .ALL_DATASETS_EXHAUSTED ∨
      s.stopping_mechanism = .SMALLEST_DATASET_EXHAUSTED) :
    ∀ r s' o' evs, samplerNext enforce env fuel oracle s = .batch r s' o' evs →
      (∃ sel x xs, lookupSrc sel s.individual_iterators = some (x :: xs) ∧
        r = [(sel, x)] ∧
        s' = { s with individual_iterators := setSrc sel xs s.individual_iterators }) ∨
      (∃ sel f o2 evs2, lookupSrc sel s.individual_iterators = some [] ∧ fuel = f + 1 ∧
        samplerNext enforce env f oracle.tail (markExhausted s sel) =
          .batch r s' o2 evs2) := by
  intro r s' o' evs heq
  by_cases h1 : s.stopping_mechanism = .SMALLEST_DATASET_EXHAUSTED ∧
      s.iterator_is_exhausted.any id = true
  · have hstep : samplerNext enforce env fuel oracle s = .stopIteration s oracle [] := by
      rw [samplerNext]; rw [if_pos h1]
    rw [hstep] at heq; simp at heq
  · by_cases h2 : s.stopping_mechanism = .ALL_DATASETS_EXHAUSTED ∧
        s.iterator_is_exhausted.all id = true
    · have hstep : samplerNext enforce env fuel oracle s = .stopIteration s oracle [] := by
        rw [samplerNext]; rw [if_neg h1, if_pos h2]
      rw [hstep] at heq; simp at heq
    · have h3 : ¬(s.stopping_mechanism = .RESTART_UNTIL_ALL_DATASETS_EXHAUSTED ∧
          s.iterators_finished.length = s.individual_iterators.length) := by
        rcases hsm with h | h <;> simp [h]
      cases hcand : samplerCandidates s with
      | nil =>
        have hstep : samplerNext enforce env fuel oracle s = .keyError := by
          rw [samplerNext]
          simp only [if_neg h1, if_neg h2, if_neg h3, hcand]
        rw [hstep] at heq; simp at heq
      | cons c0 cs =>
        set sel := (c0 :: cs).getD (oracle.headD 0 % (c0 :: cs).length) 0 with hsel
        cases hv : lookupSrc sel s.individual_iterators with
        | none =>
          have hstep : samplerNext enforce env fuel oracle s = .keyError := by
            rw [samplerNext]
            simp only [if_neg h1, if_neg h2, if_neg h3, hcand, ← hsel, hv]
          rw [hstep] at heq; simp at heq
        | some v =>
          cases v with
          | cons x xs =>
            have hstep : samplerNext enforce env fuel oracle s = .batch [(sel, x)] { s with individual_iterators := setSrc sel xs s.individual_iterators } oracle.tail ((if enforce ∧ env.is_available = true ∧ env.is_initialized = true then [Ev.broadcast] else []) ++ [.query sel]) := by
              rw [samplerNext]
              simp only [if_neg h1, if_neg h2, if_neg h3, hcand, ← hsel, hv]
            rw [hstep] at heq
            simp only [SamplerStep.batch.injEq] at heq
            exact Or.inl ⟨sel, x, xs, hv, heq.1.symm, heq.2.1.symm⟩
          | nil =>
            have h4 : ¬s.stopping_mechanism = .RESTART_UNTIL_ALL_DATASETS_EXHAUSTED := by
              rcases hsm with h | h <;> simp [h]
            have h5 : ¬s.stopping_mechanism = .WRAP_AROUND_UNTIL_KILLED := by
              rcases hsm with h | h <;> simp [h]
            cases fuel with
            | zero =>
              have hstep : samplerNext enforce env 0 oracle s = .hang := by
                rw [samplerNext]
                simp only [if_neg h1, if_neg h2, if_neg h3, hcand, ← hsel, hv,
                  if_neg h4, if_neg h5]
              rw [hstep] at heq; simp at heq
            | succ f =>
              have hstep : samplerNext enforce env (f + 1) oracle s =
                  (samplerNext enforce env f oracle.tail (markExhausted s sel)).consEvs
                    ((if enforce ∧ env.is_available = true ∧ env.is_initialized = true then
                      [Ev.broadcast] else []) ++ [.query sel]) := by
                rw [samplerNext]
                simp only [if_neg h1, if_neg h2, if_neg h3, hcand, ← hsel, hv,
                  if_neg h4, if_neg h5]
              rw [hstep] at heq
              cases hinner : samplerNext enforce env f oracle.tail (markExhausted s sel) with
              | batch r0 s0 o0 evs0 =>
                rw [hinner] at heq
                simp only [SamplerStep.consEvs, SamplerStep.batch.injEq] at heq
                rw [heq.1, heq.2.1] at hinner
                exact Or.inr ⟨sel, f, o0, evs0, hv, rfl, hinner⟩
              | stopIteration s0 o0 evs0 =>
                rw [hinner] at heq; simp [SamplerStep.consEvs] at heq
              | hang =>
                rw [hinner] at heq; simp [SamplerStep.consEvs] at heq
              | keyError =>
                rw [hinner] at heq; simp [SamplerStep.consEvs] at heq

theorem samplerNext_plain_not_exhausted : ∀ (fuel : Nat) (enforce : Bool) (env : DistEnv)
    (oracle : List Nat) (s : SamplerState),
    (s.stopping_mechanism = .ALL_DATASETS_EXHAUSTED ∨
      s.stopping_mechanism = .SMALLEST_DATASET_EXHAUSTED) →
    s.iterator_names.Nodup →
    s.iterator_is_exhausted.length = s.iterator_names.length →
    SamplerExhInv s →
    ∀ r s' o' evs, samplerNext enforce env fuel oracle s = .batch r s' o' evs →
      ∃ k x, r = [(k, x)] ∧ exhaustedAt s' k = false ∧ SamplerExhInv s' ∧
        s'.iterator_names = s.iterator_names := by
  intro fuel
  induction fuel with
  | zero =>
    intro enforce env oracle s hsm hnd hlen hinv r s' o' evs heq
    rcases samplerNext_plain_batch_cases enforce env 0 oracle s hsm r s' o' evs heq with
      ⟨sel, x, xs, hv, hr, hs'⟩ | ⟨sel, f, o2, evs2, hv, hf, hrec⟩
    · refine ⟨sel, x, hr, ?_, ?_, ?_⟩
      · subst hs'
        have hexs : exhaustedAt s sel = false := by
          by_cases hEx : exhaustedAt s sel = true
          · exact absurd (hinv sel hEx) (by rw [hv]; simp)
          · exact Bool.not_eq_true _ ▸ (by simpa using hEx)
        simpa [exhaustedAt] using hexs
      · subst hs'
        intro k hk
        have hks : exhaustedAt s k = true := by simpa [exhaustedAt] using hk
        have hkl := hinv k hks
        have hkne : k ≠ sel := by
          intro h; rw [h, hv] at hkl; simp at hkl
        show lookupSrc k (setSrc sel xs s.individual_iterators) = some []
        rw [lookupSrc_setSrc_ne hkne xs s.individual_iterators]
        exact hkl
      · subst hs'; rfl
    · simp at hf
  | succ f0 ih =>
    intro enforce env oracle s hsm hnd hlen hinv r s' o' evs heq
    rcases samplerNext_plain_batch_cases enforce env (f0 + 1) oracle s hsm r s' o' evs heq with
      ⟨sel, x, xs, hv, hr, hs'⟩ | ⟨sel, f, o2, evs2, hv, hf, hrec⟩
    · refine ⟨sel, x, hr, ?_, ?_, ?_⟩
      · subst hs'
        have hexs : exhaustedAt s sel = false := by
          by_cases hEx : exhaustedAt s sel = true
          · exact absurd (hinv sel hEx) (by rw [hv]; simp)
          · exact Bool.not_eq_true _ ▸ (by simpa using hEx)
        simpa [exhaustedAt] using hexs
      · subst hs'
        intro k hk
        have hks : exhaustedAt s k = true := by simpa [exhaustedAt] using hk
        have hkl := hinv k hks
        have hkne : k ≠ sel := by
          intro h; rw [h, hv] at hkl; simp at hkl
        show lookupSrc k (setSrc sel xs s.individual_iterators) = some []
        rw [lookupSrc_setSrc_ne hkne xs s.individual_iterators]
        exact hkl
      · subst hs'; rfl
    · have hff : f = f0 := by omega
      subst hff
      have hsm1 : (markExhausted s sel).stopping_mechanism = .ALL_DATASETS_EXHAUSTED ∨
          (markExhausted s sel).stopping_mechanism = .SMALLEST_DATASET_EXHAUSTED := by
        simpa [markExhausted] using hsm
      have hnd1 : (markExhausted s sel).iterator_names.Nodup := by
        simpa [markExhausted] using hnd
      have hlen1 : (markExhausted s sel).iterator_is_exhausted.length =
          (markExhausted s sel).iterator_names.length := by
        simpa [markExhausted, List.length_set] using hlen
      have hinv1 : SamplerExhInv (markExhausted s sel) :=
        samplerExhInv_markExhausted hnd hlen hinv hv
      obtain ⟨k, x, hr, hex, hinv', hnames⟩ :=
        ih enforce env oracle.tail (markExhausted s sel) hsm1 hnd1 hlen1 hinv1 r s' o2 evs2 hrec
      refine ⟨k, x, hr, hex, hinv', ?_⟩
      rw [hnames]; simp [markExhausted]

theorem consEvs_no_broadcast {es : List Ev} {st : SamplerStep}
    (hes : Ev.broadcast ∉ es) (hst : Ev.broadcast ∉ st.evsOf) :
    Ev.broadcast ∉ (st.consEvs es).evsOf := by
  cases st <;> simp_all [SamplerStep.consEvs, SamplerStep.evsOf]

theorem samplerNext_enforce_irrelevant : ∀ (fuel : Nat) (enforce : Bool) (env : DistEnv)
    (oracle : List Nat) (s : SamplerState), env.is_initialized = false →
    samplerNext enforce env fuel oracle s = samplerNext false env fuel oracle s := by
  intro fuel
  induction fuel with
  | zero =>
    intro enforce env oracle s hinit
    rw [samplerNext, samplerNext]
    simp only [hinit, Bool.false_eq_true, and_false, false_and, if_false, ite_false]
  | succ f ih =>
    intro enforce env oracle s hinit
    rw [samplerNext, samplerNext]
    simp only [hinit, Bool.false_eq_true, and_false, false_and, if_false, ite_false,
      ih enforce env]

theorem samplerNext_no_broadcast : ∀ (fuel : Nat) (enforce : Bool) (env : DistEnv)
    (oracle : List Nat) (s : SamplerState), env.is_initialized = false →
    Ev.broadcast ∉ (samplerNext enforce env fuel oracle s).evsOf := by
  intro fuel
  induction fuel with
  | zero =>
    intro enforce env oracle s hinit
    rw [samplerNext]
    simp only [hinit, Bool.false_eq_true, and_false, false_and, if_false, ite_false]
    repeat' split
    all_goals simp [SamplerStep.evsOf]
  | succ f ih =>
    intro enforce env oracle s hinit
    rw [samplerNext]
    simp only [hinit, Bool.false_eq_true, and_false, false_and, if_false, ite_false]
    repeat' split
    all_goals first
      | exact consEvs_no_broadcast (by simp) (ih _ _ _ _ hinit)
      | simp [SamplerStep.evsOf]

/-- C6 (counterexample): in the Weighted-Sampler with `weights = None` and
stopping mode `ALL_DATASETS_EXHAUSTED` (not WrapUntilKilled), a source
already marked exhausted IS still a candidate of the random choice: over
sources `0 ↦ []` (exhausted, flagged) and `1 ↦ [5,6]`, source 0 is in the
candidate population, and the `__next__` call whose first draw is index 0
actually selects the exhausted source and queries its handle (visible as
the first `query 0` event) before retrying. -/
theorem C6_counterexample :
    c6SP.stopping_mechanism ≠ .WRAP_AROUND_UNTIL_KILLED ∧
    exhaustedAt c6SP 0 = true ∧
    0 ∈ samplerCandidates c6SP ∧
    samplerNext false envUninit 3 [0, 1] c6SP =
      .batch [(1, 5)] c6Mid [] [.query 0, .query 1] := by
  refine ⟨by decide, by decide, by decide, ?_⟩
  simp [samplerNext, samplerCandidates, exhaustedAt, markExhausted, lookupSrc, setSrc,
    SamplerStep.consEvs, c6SP, c6Mid, envUninit]

/-- C6 (amended): in the Weighted-Sampler, (i) when weights ARE supplied
and the stopping mode is not WrapUntilKilled, the candidate population of
the random choice is exactly the not-yet-exhausted sources; (ii) when
`weights = None` NO filtering happens: the population is always the full
(sorted) name list, exhausted sources included, in every mode; (iii)
nevertheless under AllExhausted/SmallestExhausted any record actually
returned comes from a source that is not marked exhausted (an exhausted
pick is re-drawn), provided the exhausted flags only mark drained
handles. -/
theorem C6_amended_candidates :
    (∀ s : SamplerState, s.stopping_mechanism ≠ .WRAP_AROUND_UNTIL_KILLED →
      s.iterator_weights.isSome → s.iterator_names.Nodup →
      s.iterator_names.length = s.iterator_is_exhausted.length →
      ∀ k, k ∈ samplerCandidates s ↔ k ∈ s.iterator_names ∧ exhaustedAt s k = false) ∧
    (∀ s : SamplerState, s.iterator_weights = none →
      samplerCandidates s = s.iterator_names) ∧
    (∀ (fuel : Nat) (enforce : Bool) (env : DistEnv) (oracle : List Nat) (s : SamplerState),
      (s.stopping_mechanism = .ALL_DATASETS_EXHAUSTED ∨
        s.stopping_mechanism = .SMALLEST_DATASET_EXHAUSTED) →
      s.iterator_names.Nodup →
      s.iterator_is_exhausted.length = s.iterator_names.length →
      SamplerExhInv s →
      ∀ r s' o' evs, samplerNext enforce env fuel oracle s = .batch r s' o' evs →
        ∃ k x, r = [(k, x)] ∧ exhaustedAt s' k = false) := by
  refine ⟨?_, ?_, ?_⟩
  · intro s hsm hws hnd hlen k
    have hcond : s.stopping_mechanism ≠ .WRAP_AROUND_UNTIL_KILLED ∧
        s.iterator_weights.isSome := ⟨hsm, hws⟩
    show k ∈ (if _ then _ else _) ↔ _
    rw [if_pos hcond]
    exact zipFilter_mem s.iterator_names s.iterator_is_exhausted k hnd hlen
  · intro s hw
    show (if _ then _ else _) = _
    rw [if_neg]
    rw [hw]
    simp
  · intro fuel enforce env oracle s hsm hnd hlen hinv r s' o' evs heq
    obtain ⟨k, x, hr, hex, _, _⟩ :=
      samplerNext_plain_not_exhausted fuel enforce env oracle s hsm hnd hlen hinv r s' o' evs heq
    exact ⟨k, x, hr, hex⟩

/-- C6 (witness): the amended theorem applied to concrete states — the
weighted state `c6wSP` (its candidate test at key 0), the unweighted state
`c6SP` (no filtering), and a concrete batch-returning call on `c1SP`. -/
theorem C6_witness :
    (0 ∈ samplerCandidates c6wSP ↔ 0 ∈ c6wSP.iterator_names ∧ exhaustedAt c6wSP 0 = false) ∧
    samplerCandidates c6SP = c6SP.iterator_names ∧
    (∃ k x, ([(0, 0)] : Record) = [(k, x)] ∧ exhaustedAt c6BatchPost k = false) := by
  refine ⟨C6_amended_candidates.1 c6wSP (by decide) (by decide) (by decide) (by decide) 0,
    C6_amended_candidates.2.1 c6SP rfl, ?_⟩
  have hinv : SamplerExhInv c1SP := by
    intro k hk
    exfalso
    have hall : ∀ n : Nat, List.getD [false, false] n false = false := by
      intro n
      rcases n with _ | _ | n <;> rfl
    have : exhaustedAt c1SP k = false := by
      show List.getD [false, false] _ false = false
      exact hall _
    rw [this] at hk
    exact Bool.false_ne_true hk
  have heq : samplerNext false envUninit 1 [0] c1SP =
      .batch [(0, 0)] c6BatchPost [] [.query 0] := by
    simp [samplerNext, samplerCandidates, lookupSrc, setSrc, SamplerStep.consEvs,
      c1SP, c6BatchPost, envUninit]
  obtain ⟨k, x, hr, hex⟩ := C6_amended_candidates.2.2 1 false envUninit [0] c1SP
    (Or.inr rfl) (by decide) (by decide) hinv [(0, 0)] c6BatchPost [] [.query 0] heq
  exact ⟨k, x, hr, hex⟩

/-- C7 (counterexample): construction does NOT silently skip the
coordination path when the enforce flag is set: `__init__` attempts the
coordination-group creation (`dist.new_group`) unconditionally — the
`newGroup` action is recorded even though nothing consulted the distributed
environment (which may be uninitialized). -/
theorem C7_counterexample :
    samplerInit [(0, [7])] none .ALL_DATASETS_EXHAUSTED true =
      .ok (⟨[(0, [7])], [(0, [7])], [0], none, [false],
        .ALL_DATASETS_EXHAUSTED, []⟩, [.newGroup]) := by
  simp [samplerInit, sortKeys, keysOf, insertSorted]

/-- C7 (amended): when the distributed capability is not initialized,
every `next()` call of the Weighted-Sampler is indeed local-only: it
behaves exactly as if the enforce flag were disabled and never performs a
broadcast; but `__init__` with the enforce flag set attempts
`dist.new_group` unconditionally (and with it unset never does), without
consulting the environment. -/
theorem C7_amended_local_only :
    (∀ (fuel : Nat) (enforce : Bool) (env : DistEnv) (oracle : List Nat) (s : SamplerState),
      env.is_initialized = false →
      samplerNext enforce env fuel oracle s = samplerNext false env fuel oracle s) ∧
    (∀ (fuel : Nat) (enforce : Bool) (env : DistEnv) (oracle : List Nat) (s : SamplerState),
      env.is_initialized = false →
      Ev.broadcast ∉ (samplerNext enforce env fuel oracle s).evsOf) ∧
    (∀ (dls : SrcMap) (sm : StoppingMechanism) (enforce : Bool),
      samplerInit dls none sm enforce =
        .ok (⟨dls, dls, sortKeys (keysOf dls), none,
          List.replicate (sortKeys (keysOf dls)).length false, sm, []⟩,
          if enforce then [.newGroup] else [])) :=
  ⟨samplerNext_enforce_irrelevant, samplerNext_no_broadcast, fun _ _ _ => rfl⟩

/-- C7 (witness): the amended theorem applied at the uninitialized
environment `envUninit`, the concrete state `c1SP` and concrete sources. -/
theorem C7_witness :
    samplerNext true envUninit 1 [0] c1SP = samplerNext false envUninit 1 [0] c1SP ∧
    Ev.broadcast ∉ (samplerNext true envUninit 1 [0] c1SP).evsOf ∧
    samplerInit [(0, [7])] none .SMALLEST_DATASET_EXHAUSTED true =
      .ok (⟨[(0, [7])], [(0, [7])], sortKeys (keysOf [(0, [7])]), none,
        List.replicate (sortKeys (keysOf [(0, [7])])).length false,
        .SMALLEST_DATASET_EXHAUSTED, []⟩, if true then [.newGroup] else []) :=
  ⟨C7_amended_local_only.1 1 true envUninit [0] c1SP rfl,
   C7_amended_local_only.2.1 1 true envUninit [0] c1SP rfl,
   C7_amended_local_only.2.2 [(0, [7])] .SMALLEST_DATASET_EXHAUSTED true⟩

end TNT
